import Mathlib

/-!
Verification of the EML/MBOX → PDF conversion-and-merge pipeline
(`src/eml2pdf.py`) against its natural-language specification.

The development shallowly embeds the deterministic core of the pipeline:

* attachment records and the per-merge-unit dedup ledger
  (`append_attachment_pages_to_merger`, lines 226–318);
* the per-task wrapper and its exception isolation
  (`process_email_task`, lines 391–465);
* the result sort and threshold-driven batch assembly inside
  `convert_eml_files_in_directory` (lines 540–592);
* the summary accounting (lines 602–605).

External collaborators (WeasyPrint rendering, PyPDF2 validation and page
counting, SHA-256 hashing, the filesystem) are modelled as parameters:
PDF validation is a function `List Nat → Bool` over the attachment's
bytes, page counts and sizes of body PDFs are functions of their path.
`convert_html_to_pdf` (lines 117–131) never fails to produce a non-empty
PDF (it writes a minimal fallback document on rendering errors), so
header/notice page creation is modelled as always succeeding.
Attachment records carry the hash computed at extraction time, exactly as
the Python dictionaries `{'filename', 'content', 'hash'}` do.
-/

/-- An extracted attachment: the Python dict
`{'filename': …, 'content': …, 'hash': …}` built in
`extract_email_main_html_and_attachments` (lines 178–182).  `content` is
the byte sequence, `hash` the SHA-256 fingerprint computed at extraction. -/
structure AttachmentData where
  filename : String
  content : List Nat
  hash : String
deriving Repr, DecidableEq

/-- One page-producing unit appended to a `PyPDF2.PdfMerger`.
`labelPage` is the per-attachment header page (lines 242–278); when the
attachment is a duplicate the reference note naming the first
occurrence's filename is rendered on this same page (lines 257–268), so
`dupOf = some firstFilename` marks a label page carrying the reference
notice.  `contentPdf` is the embedded attachment content (line 295),
`brokenNotice` the error placeholder for a corrupted PDF (lines 299–303),
`bodyPdf` a rendered message body (line 559). -/
inductive Artifact where
  | bodyPdf (path : String)
  | labelPage (filename : String) (hash : String) (dupOf : Option String)
  | contentPdf (filename : String) (hash : String) (content : List Nat)
  | brokenNotice (filename : String) (hash : String)
deriving Repr, DecidableEq

/-- The mutable state threaded through `append_attachment_pages_to_merger`
(lines 226–318): the merger's appended artifacts, the per-merge-unit
ledger `seen_hashes_in_document` (fingerprint → first filename, in
insertion order), and the three returned counters
(`attachments_processed_count`, `broken_attachment_list`,
`reused_attachments_this_call`). -/
structure AttachMergeState where
  artifacts : List Artifact
  seen : List (String × String)
  processed : Nat
  broken : List String
  reused : Nat
deriving Repr, DecidableEq

/-- Lookup in the Python dict `seen_hashes_in_document`
(`current_hash in seen_hashes_in_document`, line 257). -/
def dictLookup (d : List (String × String)) (k : String) : Option String :=
  match d with
  | [] => none
  | (k', v) :: rest => if k' = k then some v else dictLookup rest k

/-- Python dict assignment `seen[k] = v` (line 309): replaces an existing
binding in place, otherwise appends the new binding at the end. -/
def dictInsert (d : List (String × String)) (k v : String) : List (String × String) :=
  match d with
  | [] => [(k, v)]
  | (k', v') :: rest => if k' = k then (k, v) :: rest else (k', v') :: dictInsert rest k v

/-- The check `filename.lower().endswith(".pdf")` (lines 288, 348, 562, 583),
computed on the filename's character sequence (ASCII case folding
followed by a `.pdf` suffix check). -/
def isPdfName (fn : String) : Bool :=
  ['.', 'p', 'd', 'f'].isSuffixOf (fn.data.map Char.toLower)

/-- Whether the embed path actually appends the attachment content:
the filename check and non-empty check of line 288 followed by the
`PyPDF2.PdfReader` validation of line 294. -/
def shouldEmbedAttachment (validatePdf : List Nat → Bool) (a : AttachmentData) : Bool :=
  isPdfName a.filename && !a.content.isEmpty && validatePdf a.content

/-- The suffix appended to a broken attachment's filename in
`broken_attachment_list` (line 298). -/
def brokenSuffix : String := " (corrupted PDF content)"

/-- One iteration of the loop of `append_attachment_pages_to_merger`
(lines 236–311) for attachment `a`:
1. `attachments_processed_count += 1` (line 240);
2. if deduplication is active and the fingerprint is already in the
   ledger (line 257), the label page carries the duplicate note naming
   the first occurrence's filename and `reused` is incremented
   (lines 258–268); nothing else happens for this attachment;
3. otherwise the plain label page is appended, then — when the filename
   ends in `.pdf` and the content is non-empty (line 288) — the content
   is embedded if it validates (line 295) or a broken notice is
   substituted and the annotated filename recorded (lines 296–303);
4. finally, when deduplication is active, the fingerprint is recorded in
   the ledger (lines 308–309). -/
def processOneAttachment (validatePdf : List Nat → Bool) (dedup : Bool)
    (s : AttachMergeState) (a : AttachmentData) : AttachMergeState :=
  if dedup && (dictLookup s.seen a.hash).isSome then
    { artifacts := s.artifacts ++ [Artifact.labelPage a.filename a.hash (dictLookup s.seen a.hash)]
      seen := s.seen
      processed := s.processed + 1
      broken := s.broken
      reused := s.reused + 1 }
  else if isPdfName a.filename && !a.content.isEmpty then
    if validatePdf a.content then
      { artifacts := s.artifacts ++
          [Artifact.labelPage a.filename a.hash none,
           Artifact.contentPdf a.filename a.hash a.content]
        seen := if dedup then dictInsert s.seen a.hash a.filename else s.seen
        processed := s.processed + 1
        broken := s.broken
        reused := s.reused }
    else
      { artifacts := s.artifacts ++
          [Artifact.labelPage a.filename a.hash none,
           Artifact.brokenNotice a.filename a.hash]
        seen := if dedup then dictInsert s.seen a.hash a.filename else s.seen
        processed := s.processed + 1
        broken := s.broken ++ [a.filename ++ brokenSuffix]
        reused := s.reused }
  else
    { artifacts := s.artifacts ++ [Artifact.labelPage a.filename a.hash none]
      seen := if dedup then dictInsert s.seen a.hash a.filename else s.seen
      processed := s.processed + 1
      broken := s.broken
      reused := s.reused }

/-- The function `append_attachment_pages_to_merger` (lines 226–318): processes the
attachment list in order, threading the merger, the ledger and the
counters. -/
def append_attachment_pages_to_merger (validatePdf : List Nat → Bool) (dedup : Bool)
    (s : AttachMergeState) (atts : List AttachmentData) : AttachMergeState :=
  atts.foldl (processOneAttachment validatePdf dedup) s

/-- The state at the start of a merge unit: empty merger, fresh ledger
(`seen_hashes_this_merged_part = {}`, line 553), zeroed counters. -/
def emptyAttachState : AttachMergeState :=
  { artifacts := [], seen := [], processed := 0, broken := [], reused := 0 }

/-- A merge-mode task result: the tuple
`(body_pdf_path_or_None, attachments_data, identifier_for_log)` returned
by `process_email_task` (lines 448–449, 465). -/
structure MergeResult where
  bodyPath : Option String
  atts : List AttachmentData
  origId : String
deriving Repr, DecidableEq

/-- The body of `_execute_final_merge_batch` (lines 555–570) for one
closed batch: for each item append its body PDF (when present), then run
`append_attachment_pages_to_merger` on its `.pdf`-named attachments,
sharing one fresh ledger `seen_hashes_this_merged_part` across the whole
batch. -/
def execMergeBatch (validatePdf : List Nat → Bool) (dedup : Bool)
    (batch : List MergeResult) : AttachMergeState :=
  batch.foldl
    (fun s r =>
      let s' := match r.bodyPath with
        | some p => { s with artifacts := s.artifacts ++ [Artifact.bodyPdf p] }
        | none => s
      let pdfAtts := r.atts.filter (fun a => isPdfName a.filename)
      if pdfAtts.isEmpty then s'
      else append_attachment_pages_to_merger validatePdf dedup s' pdfAtts)
    emptyAttachState

/-- The page-contribution estimate of one task result: its body PDF's
page count plus one page per `.pdf`-named attachment
(`body_pdf_page_count + estimated_attach_pages`, lines 582–583).
`pagesOf` models `get_pdf_page_count` on the body file. -/
def candidatePages (pagesOf : String → Nat) (r : MergeResult) : Nat :=
  (match r.bodyPath with
   | some p => pagesOf p
   | none => 0) +
  (r.atts.filter (fun a => isPdfName a.filename)).length

/-- The size contribution of one task result (`get_pdf_size_mb`,
line 581), in megabytes. -/
def candidateSize (sizeOf : String → Rat) (r : MergeResult) : Rat :=
  match r.bodyPath with
  | some p => sizeOf p
  | none => 0

/-- The batch-accumulation loop of `convert_eml_files_in_directory`
(lines 579–592), with the explicit accumulator state
(`current_batch_items_for_merger`, `current_accumulated_size_mb`,
`current_accumulated_page_count`): a result without a body path is
skipped (line 580); otherwise, when the current batch is non-empty and a
configured threshold would be exceeded, the batch is flushed first
(lines 584–588); the item is then accepted into the (possibly fresh)
batch (lines 589–591).  The trailing flush is line 592. -/
def assembleGo (sizeOf : String → Rat) (pagesOf : String → Nat)
    (splitsize : Rat) (splitpages : Nat) :
    List MergeResult → List MergeResult → Rat → Nat → List (List MergeResult)
  | [], cur, _, _ => if cur.isEmpty then [] else [cur]
  | r :: rest, cur, accSize, accPages =>
    match r.bodyPath with
    | none => assembleGo sizeOf pagesOf splitsize splitpages rest cur accSize accPages
    | some _ =>
      let cs := candidateSize sizeOf r
      let cp := candidatePages pagesOf r
      if ¬ cur.isEmpty ∧ splitsize > 0 ∧ accSize + cs > splitsize then
        cur :: assembleGo sizeOf pagesOf splitsize splitpages rest [r] cs cp
      else if ¬ cur.isEmpty ∧ splitpages > 0 ∧ accPages + cp > splitpages then
        cur :: assembleGo sizeOf pagesOf splitsize splitpages rest [r] cs cp
      else
        assembleGo sizeOf pagesOf splitsize splitpages rest (cur ++ [r]) (accSize + cs)
          (accPages + cp)

/-- Batch assembly over the sorted task results (lines 542–545, 579–592),
starting from an empty batch and zero accumulators. -/
def assembleBatches (sizeOf : String → Rat) (pagesOf : String → Nat)
    (splitsize : Rat) (splitpages : Nat) (results : List MergeResult) :
    List (List MergeResult) :=
  assembleGo sizeOf pagesOf splitsize splitpages results [] 0 0

/-- A task descriptor, as built during enumeration (lines 494, 508):
either an `.eml` file task (`locator` = file name) or an mbox message
task (`locator` = mbox file name, `msgIndex` = 1-based position). -/
structure TaskInfo where
  taskType : String
  locator : String
  msgIndex : Nat
deriving Repr, DecidableEq

/-- The string `identifier_for_log` as assigned in `process_email_task`
(lines 403, 412): the file name for an `.eml` task, the string
`"message {msg_index} from {mbox_filename}"` for an mbox task, and the
initial empty string for an unknown task type. -/
def taskIdentifier (t : TaskInfo) : String :=
  if t.taskType = "eml" then t.locator
  else if t.taskType = "mbox" then
    "message " ++ toString t.msgIndex ++ " from " ++ t.locator
  else ""

/-- The task wrapper `process_email_task` in merge mode (lines 391–465).  The fallible
interior of the task — reading and parsing the message, extracting
attachments, rendering the body PDF and checking it is non-empty
(lines 400–449) — is abstracted as `inner`: `.ok (some path, atts)` is a
successful body render, `.ok (none, atts)` a failed body render
(line 448), and `.error` an exception, which the task-level handler of
lines 463–465 converts into the `(None, [], identifier)` error marker.
An unknown task type yields the same marker (line 417). -/
def process_email_task (inner : TaskInfo → Except String (Option String × List AttachmentData))
    (t : TaskInfo) : MergeResult :=
  if t.taskType ≠ "eml" ∧ t.taskType ≠ "mbox" then
    { bodyPath := none, atts := [], origId := taskIdentifier t }
  else
    match inner t with
    | Except.ok (p, atts) => { bodyPath := p, atts := atts, origId := taskIdentifier t }
    | Except.error _ => { bodyPath := none, atts := [], origId := taskIdentifier t }

/-- The worker pool (lines 521–531): every submitted task produces
exactly one result; `future.result()` never raises because
`process_email_task` catches everything, so every result is collected. -/
def runPool (inner : TaskInfo → Except String (Option String × List AttachmentData))
    (tasks : List TaskInfo) : List MergeResult :=
  tasks.map (process_email_task inner)

/-- Python string comparison (code-point lexicographic `<=` on the
character sequences), used by `list.sort(key=...)`. -/
def charListLe : List Char → List Char → Bool
  | [], _ => true
  | _ :: _, [] => false
  | x :: xs, y :: ys =>
    if x.val < y.val then true
    else if y.val < x.val then false
    else charListLe xs ys

/-- Stable insertion of a result into a list sorted by `origId`:
the new element goes before the first strictly-or-equally greater key,
matching the stable ascending sort of Python `list.sort`. -/
def insertByOrigId (r : MergeResult) : List MergeResult → List MergeResult
  | [] => [r]
  | b :: l =>
    if charListLe r.origId.data b.origId.data then r :: b :: l
    else b :: insertByOrigId r l

/-- The sort `processed_task_results.sort(key=lambda x: x[2])` (line 541): sorts
the completed results by their identifier string. -/
def sortResultsByOrigId (rs : List MergeResult) : List MergeResult :=
  rs.foldr insertByOrigId []

/-- The run totals accumulated across merge batches
(`total_pdf_attachments_mentioned`, `all_broken_pdf_attachments`,
`total_reused_attachments_count`, lines 534–538, 568–570), together with
the artifact sequence of every written part. -/
structure RunTotals where
  processedTotal : Nat
  brokenTotal : List String
  reusedTotal : Nat
  partsArtifacts : List (List Artifact)
deriving Repr, DecidableEq

/-- Executes every closed batch in order (`_execute_final_merge_batch`,
lines 547–577) and accumulates the run totals; each batch starts with a
fresh ledger and each written part contributes its file to the report. -/
def execAllBatches (validatePdf : List Nat → Bool) (dedup : Bool)
    (batches : List (List MergeResult)) : RunTotals :=
  batches.foldl
    (fun tot batch =>
      let u := execMergeBatch validatePdf dedup batch
      { processedTotal := tot.processedTotal + u.processed
        brokenTotal := tot.brokenTotal ++ u.broken
        reusedTotal := tot.reusedTotal + u.reused
        partsArtifacts := tot.partsArtifacts ++ [u.artifacts] })
    { processedTotal := 0, brokenTotal := [], reusedTotal := 0, partsArtifacts := [] }

/-- The summary counters of lines 602–605: `items_attempted` is the
enumerated input count, `successful_conversions_count` the number of
generated output files (every modelled write succeeds and produces a
non-empty file), and `failed_conversions_count` their difference. -/
structure Summary where
  itemsAttempted : Nat
  succeeded : Nat
  failed : Nat
deriving Repr, DecidableEq

/-- The merge-mode pipeline of `convert_eml_files_in_directory`
(lines 519–605): run the pool, sort the results by identifier, assemble
threshold-bounded batches, execute each batch, and build the summary.
In merge mode `final_generated_files_for_report` holds one file per
written part (line 574), so `succeeded` is the number of parts. -/
def convertMergeRun (validatePdf : List Nat → Bool) (dedup : Bool)
    (sizeOf : String → Rat) (pagesOf : String → Nat)
    (splitsize : Rat) (splitpages : Nat)
    (inner : TaskInfo → Except String (Option String × List AttachmentData))
    (tasks : List TaskInfo) : Summary × RunTotals × List (List MergeResult) :=
  let results := runPool inner tasks
  let sorted := sortResultsByOrigId results
  let batches := assembleBatches sizeOf pagesOf splitsize splitpages sorted
  let totals := execAllBatches validatePdf dedup batches
  ({ itemsAttempted := tasks.length
     succeeded := batches.length
     failed := tasks.length - batches.length },
   totals, batches)

/-- The PDF branch of `eml_to_output_for_individual_file`
(lines 321–373): a fresh ledger per email (`seen_hashes_this_document`,
line 347), `append_attachment_pages_to_merger` over the `.pdf`-named
attachments (lines 348–355), returning
`(att_count, broken_atts, reused_attach_count_total)`. -/
def eml_to_output_for_individual_file (validatePdf : List Nat → Bool) (dedup : Bool)
    (atts : List AttachmentData) : Nat × List String × Nat :=
  let pdfAtts := atts.filter (fun a => isPdfName a.filename)
  let r := append_attachment_pages_to_merger validatePdf dedup emptyAttachState pdfAtts
  (r.processed, r.broken, r.reused)

/-- An individual-mode task result: the tuple
`(final_output_path, pdf_attach_count, broken_list, reused_count,
identifier_for_log)` of line 461, with the `(None, 0, [], 0, id)` error
marker of lines 417, 422 and 465. -/
structure IndividualResult where
  outPath : Option String
  attCount : Nat
  brokenList : List String
  reusedCount : Nat
  origId : String
deriving Repr, DecidableEq

/-- The task wrapper `process_email_task` in individual-output mode (lines 450–465):
`parse` abstracts the fallible message loading and attachment extraction
(lines 400–425), `outPathOf` the output-name computation of
lines 451–453.  Every failure is caught and becomes the error marker. -/
def process_email_task_individual (validatePdf : List Nat → Bool) (dedup : Bool)
    (parse : TaskInfo → Except String (List AttachmentData))
    (outPathOf : TaskInfo → String) (t : TaskInfo) : IndividualResult :=
  if t.taskType ≠ "eml" ∧ t.taskType ≠ "mbox" then
    { outPath := none, attCount := 0, brokenList := [], reusedCount := 0
      origId := taskIdentifier t }
  else
    match parse t with
    | Except.ok atts =>
      let r := eml_to_output_for_individual_file validatePdf dedup atts
      { outPath := some (outPathOf t), attCount := r.1, brokenList := r.2.1
        reusedCount := r.2.2, origId := taskIdentifier t }
    | Except.error _ =>
      { outPath := none, attCount := 0, brokenList := [], reusedCount := 0
        origId := taskIdentifier t }

/-- The individual-output pipeline (lines 519–531, 593–605): run the
pool, then tally results with a valid output path (lines 595–600) and
build the summary.  Every modelled write succeeds, so `succeeded` counts
the results carrying an output path. -/
def convertIndividualRun (validatePdf : List Nat → Bool) (dedup : Bool)
    (parse : TaskInfo → Except String (List AttachmentData))
    (outPathOf : TaskInfo → String) (tasks : List TaskInfo) :
    Summary × Nat × List String × Nat :=
  let results := tasks.map (process_email_task_individual validatePdf dedup parse outPathOf)
  let generated := results.filter (fun r => r.outPath.isSome)
  let totals := generated.foldl
    (fun acc r => (acc.1 + r.attCount, acc.2.1 ++ r.brokenList, acc.2.2 + r.reusedCount))
    ((0 : Nat), ([] : List String), (0 : Nat))
  ({ itemsAttempted := tasks.length
     succeeded := generated.length
     failed := tasks.length - generated.length },
   totals)

/-- One `<li>` entry of `create_attachment_name_list_html` (line 113),
for an arbitrary HTML-escaping function `esc`
(`html2text.html.escape`). -/
def attachmentListItems (esc : String → String) (atts : List AttachmentData) : List String :=
  atts.map (fun a => "<li>" ++ esc a.filename ++ " (SHA256: " ++ a.hash ++ ")</li>")

/-- The function `create_attachment_name_list_html` (lines 109–114): empty string for
no attachments, otherwise the summary block listing every attachment's
name and hash. -/
def create_attachment_name_list_html (esc : String → String)
    (atts : List AttachmentData) : String :=
  if atts.isEmpty then ""
  else "<hr><h3>Attachments Processed (Summary):</h3><ul>"
    ++ String.join (attachmentListItems esc atts) ++ "</ul>"

/-- Count of embedded-content artifacts carrying fingerprint `h`. -/
def embedCountH (h : String) (arts : List Artifact) : Nat :=
  arts.countP (fun x => match x with
    | Artifact.contentPdf _ h' _ => h' == h
    | _ => false)

/-- Count of all embedded-content artifacts. -/
def embedTotal (arts : List Artifact) : Nat :=
  arts.countP (fun x => match x with
    | Artifact.contentPdf _ _ _ => true
    | _ => false)

/-- Count of label pages carrying the duplicate-reference notice for
fingerprint `h`. -/
def refNoticeCountH (h : String) (arts : List Artifact) : Nat :=
  arts.countP (fun x => match x with
    | Artifact.labelPage _ h' (some _) => h' == h
    | _ => false)

/-- Count of all label pages (with or without the reference notice). -/
def labelCount (arts : List Artifact) : Nat :=
  arts.countP (fun x => match x with
    | Artifact.labelPage _ _ _ => true
    | _ => false)

/-- Count of label pages carrying a duplicate-reference notice. -/
def dupLabelCount (arts : List Artifact) : Nat :=
  arts.countP (fun x => match x with
    | Artifact.labelPage _ _ (some _) => true
    | _ => false)

/-- Number of attachment records in `L` with fingerprint `h`. -/
def occurrences (L : List AttachmentData) (h : String) : Nat :=
  (L.filter (fun a => a.hash == h)).length

/-- Appends a hash to the accumulator when not yet present. -/
def insertNewHash (ks : List String) (h : String) : List String :=
  if h ∈ ks then ks else ks ++ [h]

/-- The distinct fingerprints of `L`, in first-encounter order. -/
def distinctHashes (L : List AttachmentData) : List String :=
  L.foldl (fun ks a => insertNewHash ks a.hash) []

/-- The claim's reused count: the sum over fingerprints of
(occurrences − 1). -/
def reusedSpec (L : List AttachmentData) : Nat :=
  ((distinctHashes L).map (fun h => occurrences L h - 1)).sum

/-- Pages contributed to the merged document by one artifact, counting
only attachment-pipeline pages: label and broken-notice pages are single
generated pages, an embedded content contributes the page count of its
bytes (`pageCountOf`, the Document Library's page counter), and body
pages are not counted. -/
def attachmentPages (pageCountOf : List Nat → Nat) : Artifact → Nat
  | Artifact.bodyPdf _ => 0
  | Artifact.labelPage _ _ _ => 1
  | Artifact.contentPdf _ _ c => pageCountOf c
  | Artifact.brokenNotice _ _ => 1

/-- Total attachment-pipeline pages of an artifact list. -/
def attachmentPagesTotal (pageCountOf : List Nat → Nat) (arts : List Artifact) : Nat :=
  (arts.map (attachmentPages pageCountOf)).sum

/-- The body-plus-attachment page estimate of a flushed part: the sum of
its items' candidate page contributions, which equals the loop's
`current_accumulated_page_count` at flush time. -/
def partPagesEstimate (pagesOf : String → Nat) (part : List MergeResult) : Nat :=
  (part.map (candidatePages pagesOf)).sum

/-! ### Helper lemmas: batch assembly without thresholds -/

/-- With both thresholds at 0 the accumulation loop never flushes
mid-run: everything with a body path joins the single current batch,
flushed once at the end (or never, if empty). -/
theorem assembleGo_no_thresholds (sizeOf : String → Rat) (pagesOf : String → Nat) :
    ∀ (results cur : List MergeResult) (accS : Rat) (accP : Nat),
      assembleGo sizeOf pagesOf 0 0 results cur accS accP =
        if (cur ++ results.filter (fun r => r.bodyPath.isSome)).isEmpty then []
        else [cur ++ results.filter (fun r => r.bodyPath.isSome)] := by
  intro results
  induction results with
  | nil => intro cur accS accP; simp [assembleGo]
  | cons r rest ih =>
    intro cur accS accP
    cases hb : r.bodyPath with
    | none =>
      simp only [assembleGo, hb, List.filter_cons, Option.isSome_none]
      rw [ih]
      simp
    | some p =>
      simp only [assembleGo, hb, List.filter_cons, Option.isSome_some]
      rw [if_neg (by simp), if_neg (by simp)]
      rw [ih]
      simp

/-! ### Claim C1: merge-order versus enumeration order -/

/-- An mbox container `box.mbox` holding ten messages, enumerated with
1-based `msg_index` 1..10 (lines 505–508). -/
def c1MboxTasks : List TaskInfo :=
  (List.range 10).map (fun i => { taskType := "mbox", locator := "box.mbox", msgIndex := i + 1 })

/-- Task interior for the C1 run: every message renders a body PDF whose
path length encodes the message's enumeration index, with no
attachments. -/
def c1Inner : TaskInfo → Except String (Option String × List AttachmentData) :=
  fun t => Except.ok (some (String.mk (List.replicate t.msgIndex 'x')), [])

/-- The enumeration indices of the items inside the single merged output
of the C1 run, in concatenation order. -/
def c1MergedOrder : List Nat :=
  ((assembleBatches (fun _ => 0) (fun _ => 0) 0 0
      (sortResultsByOrigId (runPool c1Inner c1MboxTasks))).flatten).map
    (fun r => (r.bodyPath.getD "").length)

/-- Whether a list of enumeration indices is in ascending
(non-decreasing) order. -/
def ascendingNat : List Nat → Bool
  | [] => true
  | [_] => true
  | a :: b :: t => (decide (a ≤ b)) && ascendingNat (b :: t)

/-- Claim C1: the claim states that in merge mode the items inside any
merged output appear in ascending enumeration (`sequenceIndex`) order for
every input set, including mbox containers with ten or more messages.
The code instead sorts completed results by the identifier string
`"message {i} from {name}"` (line 541), so for a ten-message container
message 10 is concatenated between message 1 and message 2: the
enumeration indices inside the single merged output are
`[1, 10, 2, 3, 4, 5, 6, 7, 8, 9]`, which is not ascending.  This
contradicts the spec's ordering guarantee (the code's own intent, given
that merged part names are zero-padded at line 550 precisely to sort
correctly), so the claim stands and the code is wrong. -/
theorem c1_mbox_sort_breaks_sequence_order :
    c1MergedOrder = [1, 10, 2, 3, 4, 5, 6, 7, 8, 9] ∧
    ascendingNat c1MergedOrder = false := by
  exact ⟨rfl, rfl⟩

/-! ### Claim C5: no thresholds configured -/

/-- A task result whose body render failed (error marker, line 465). -/
def c5FailedResult : MergeResult := { bodyPath := none, atts := [], origId := "a" }

/-- Claim C5 counterexample: the claim states that with both thresholds
at 0 exactly one merge unit is produced covering the entire ordered set
of task results.  On a run whose only task result carries the error
marker (no body path), the batching loop skips it (line 580) and the
final flush produces no unit at all: zero units, not one, and no unit
covers that result. -/
theorem c5_counterexample :
    (assembleBatches (fun _ => 0) (fun _ => 0) 0 0 [c5FailedResult]).length = 0 ∧
    ¬ (assembleBatches (fun _ => 0) (fun _ => 0) 0 0 [c5FailedResult]).length = 1 := by
  constructor
  · rfl
  · decide

/-- Claim C5 (amended): with no size threshold and no page threshold
configured (both 0), the batching loop produces exactly one merge unit
covering, in order, exactly the task results that carry a body artifact
— provided at least one such result exists; if every result failed, no
unit is produced. -/
theorem c5_no_thresholds_single_unit_amended (sizeOf : String → Rat)
    (pagesOf : String → Nat) (results : List MergeResult) :
    assembleBatches sizeOf pagesOf 0 0 results =
      if (results.filter (fun r => r.bodyPath.isSome)).isEmpty then []
      else [results.filter (fun r => r.bodyPath.isSome)] := by
  unfold assembleBatches
  rw [assembleGo_no_thresholds]
  simp

/-! ### Claim C7: the three-duplicates scenario -/

/-- Page validation for the C7 scenario: any non-empty byte sequence is
a readable PDF. -/
def c7ValidatePdf : List Nat → Bool := fun c => !c.isEmpty

/-- The identical 10-byte payload attached by all three items. -/
def c7Payload : List Nat := [0, 1, 2, 3, 4, 5, 6, 7, 8, 9]

/-- The single merge unit of the C7 scenario: three items, each with a
rendered body and one attachment carrying the identical payload (hence
the identical fingerprint `"h"`) under three different filenames. -/
def c7Batch : List MergeResult :=
  [ { bodyPath := some "b1", atts := [⟨"a1.pdf", c7Payload, "h"⟩], origId := "m1" },
    { bodyPath := some "b2", atts := [⟨"a2.pdf", c7Payload, "h"⟩], origId := "m2" },
    { bodyPath := some "b3", atts := [⟨"a3.pdf", c7Payload, "h"⟩], origId := "m3" } ]

/-- The executed C7 merge unit (deduplication on). -/
def c7Unit : AttachMergeState := execMergeBatch c7ValidatePdf true c7Batch

/-- Claim C7 counterexample: the claim states the scenario's output
contains 3 label pages, 1 embedded content page and 2 reference-notice
pages *distinct from* the label pages — 3 + 1 + 2 = 6 attachment-side
pages in all (the payload embeds as one page).  The code instead renders
each reference notice on the duplicate's own label page (lines 257–268
append the note into the same header HTML), so the unit has only
3 + 1 = 4 attachment-side pages; there is no separate reference-notice
page.  `attachmentsReused = 2` does hold. -/
theorem c7_counterexample :
    labelCount c7Unit.artifacts = 3 ∧
    embedCountH "h" c7Unit.artifacts = 1 ∧
    c7Unit.reused = 2 ∧
    attachmentPagesTotal (fun _ => 1) c7Unit.artifacts = 4 ∧
    ¬ attachmentPagesTotal (fun _ => 1) c7Unit.artifacts = 3 + 1 + 2 := by
  refine ⟨rfl, rfl, rfl, rfl, ?_⟩
  intro h
  rw [show attachmentPagesTotal (fun _ => 1) c7Unit.artifacts = 4 from rfl] at h
  exact absurd h (by decide)

/-- Claim C7 (amended): in the concrete scenario — 3 items each attaching
the identical payload under different filenames, merge on, dedup on, one
merge unit — the output consists, in order, of the three bodies
interleaved with 3 label pages, of which the first is followed by the
single embedded copy of the content and the other two carry the
reference notice naming the first occurrence's filename on the label
page itself (not as a separate page); the reported `attachmentsReused`
equals 2. -/
theorem c7_scenario_amended :
    c7Unit.artifacts =
      [ Artifact.bodyPdf "b1",
        Artifact.labelPage "a1.pdf" "h" none,
        Artifact.contentPdf "a1.pdf" "h" c7Payload,
        Artifact.bodyPdf "b2",
        Artifact.labelPage "a2.pdf" "h" (some "a1.pdf"),
        Artifact.bodyPdf "b3",
        Artifact.labelPage "a3.pdf" "h" (some "a1.pdf") ] ∧
    c7Unit.reused = 2 ∧
    labelCount c7Unit.artifacts = 3 ∧
    dupLabelCount c7Unit.artifacts = 2 ∧
    embedTotal c7Unit.artifacts = 1 := by
  exact ⟨rfl, rfl, rfl, rfl, rfl⟩

/-! ### Helper lemmas: the ledger dictionary -/

theorem dictLookup_dictInsert_ne (d : List (String × String)) (k v k' : String)
    (h : k ≠ k') : dictLookup (dictInsert d k v) k' = dictLookup d k' := by
  induction d with
  | nil => simp [dictInsert, dictLookup, h]
  | cons p rest ih =>
    obtain ⟨pk, pv⟩ := p
    by_cases hpk : pk = k
    · subst hpk
      simp [dictInsert, dictLookup, h]
    · simp [dictInsert, dictLookup, hpk]
      by_cases hpk' : pk = k'
      · simp [hpk']
      · simp [hpk', ih]

theorem dictInsert_of_lookup_none (d : List (String × String)) (k v : String)
    (h : dictLookup d k = none) : dictInsert d k v = d ++ [(k, v)] := by
  induction d with
  | nil => simp [dictInsert]
  | cons p rest ih =>
    obtain ⟨pk, pv⟩ := p
    by_cases hpk : pk = k
    · subst hpk; simp [dictLookup] at h
    · simp [dictLookup, hpk] at h
      simp [dictInsert, hpk, ih h]

theorem dictLookup_append_of_none (d d' : List (String × String)) (k : String)
    (h : dictLookup d k = none) : dictLookup (d ++ d') k = dictLookup d' k := by
  induction d with
  | nil => simp
  | cons p rest ih =>
    obtain ⟨pk, pv⟩ := p
    by_cases hpk : pk = k
    · subst hpk; simp [dictLookup] at h
    · simp [dictLookup, hpk] at h ⊢
      exact ih h

theorem dictLookup_append_of_some (d d' : List (String × String)) (k w : String)
    (h : dictLookup d k = some w) : dictLookup (d ++ d') k = some w := by
  induction d with
  | nil => simp [dictLookup] at h
  | cons p rest ih =>
    obtain ⟨pk, pv⟩ := p
    by_cases hpk : pk = k
    · subst hpk
      simp [dictLookup] at h ⊢
      exact h
    · simp [dictLookup, hpk] at h ⊢
      exact ih h

theorem dictLookup_mem (d : List (String × String)) (k w : String)
    (h : dictLookup d k = some w) : (k, w) ∈ d := by
  induction d with
  | nil => simp [dictLookup] at h
  | cons p rest ih =>
    obtain ⟨pk, pv⟩ := p
    by_cases hpk : pk = k
    · subst hpk
      simp [dictLookup] at h
      simp [h]
    · simp [dictLookup, hpk] at h
      simp [ih h]

theorem dictLookup_isSome_iff_mem_keys (d : List (String × String)) (k : String) :
    (dictLookup d k).isSome = true ↔ k ∈ d.map Prod.fst := by
  induction d with
  | nil => simp [dictLookup]
  | cons p rest ih =>
    obtain ⟨pk, pv⟩ := p
    by_cases hpk : pk = k
    · subst hpk; simp [dictLookup]
    · simp [dictLookup, hpk, ih, Ne.symm hpk]

/-! ### Helper lemmas: counters of the attachment loop -/

theorem processed_processOneAttachment (v : List Nat → Bool) (d : Bool)
    (s : AttachMergeState) (a : AttachmentData) :
    (processOneAttachment v d s a).processed = s.processed + 1 := by
  unfold processOneAttachment
  split_ifs <;> rfl

/-- Every attachment handed to the loop is processed: the loop never
aborts, whatever each attachment's validation outcome. -/
theorem processed_append (v : List Nat → Bool) (d : Bool) :
    ∀ (L : List AttachmentData) (s : AttachMergeState),
      (append_attachment_pages_to_merger v d s L).processed = s.processed + L.length := by
  intro L
  induction L with
  | nil => intro s; simp [append_attachment_pages_to_merger]
  | cons a t ih =>
    intro s
    show (append_attachment_pages_to_merger v d (processOneAttachment v d s a) t).processed = _
    rw [ih, processed_processOneAttachment]
    simp [Nat.add_assoc, Nat.add_comm 1 t.length]

theorem reused_processOneAttachment_false (v : List Nat → Bool)
    (s : AttachMergeState) (a : AttachmentData) :
    (processOneAttachment v false s a).reused = s.reused := by
  unfold processOneAttachment
  split_ifs <;> simp_all

/-- With deduplication disabled the reused counter is never touched. -/
theorem reused_append_false (v : List Nat → Bool) :
    ∀ (L : List AttachmentData) (s : AttachMergeState),
      (append_attachment_pages_to_merger v false s L).reused = s.reused := by
  intro L
  induction L with
  | nil => intro s; rfl
  | cons a t ih =>
    intro s
    show (append_attachment_pages_to_merger v false (processOneAttachment v false s a) t).reused = _
    rw [ih, reused_processOneAttachment_false]

/-- One loop step with deduplication disabled embeds exactly when the
attachment passes the embed checks — independently of every other
attachment. -/
theorem embedTotal_processOneAttachment_false (v : List Nat → Bool)
    (s : AttachMergeState) (a : AttachmentData) :
    embedTotal (processOneAttachment v false s a).artifacts =
      embedTotal s.artifacts + (if shouldEmbedAttachment v a then 1 else 0) := by
  unfold processOneAttachment
  rw [if_neg (by simp)]
  by_cases hb : (isPdfName a.filename && !a.content.isEmpty) = true
  · rw [if_pos hb]
    by_cases hv : v a.content = true
    · rw [if_pos hv]
      have hse : shouldEmbedAttachment v a = true := by
        simp [shouldEmbedAttachment, hb, hv]
      rw [hse]
      simp [embedTotal, List.countP_append]
    · rw [if_neg hv]
      have hvf : v a.content = false := by
        revert hv
        cases v a.content <;> simp
      have hse : shouldEmbedAttachment v a = false := by
        simp [shouldEmbedAttachment, hvf]
      rw [hse]
      simp [embedTotal, List.countP_append]
  · rw [if_neg hb]
    have hbf : (isPdfName a.filename && !a.content.isEmpty) = false := by
      revert hb
      cases (isPdfName a.filename && !a.content.isEmpty) <;> simp
    have hse : shouldEmbedAttachment v a = false := by
      simp [shouldEmbedAttachment, hbf]
    rw [hse]
    simp [embedTotal, List.countP_append]

/-- With deduplication disabled a run of the loop embeds exactly the
attachments that pass the embed checks, whatever else the unit contains:
broken or non-`.pdf` attachments alongside do not affect the others. -/
theorem embedTotal_append_false (v : List Nat → Bool) :
    ∀ (L : List AttachmentData) (s : AttachMergeState),
      embedTotal (append_attachment_pages_to_merger v false s L).artifacts =
        embedTotal s.artifacts + L.countP (fun a => shouldEmbedAttachment v a) := by
  intro L
  induction L with
  | nil => intro s; simp [append_attachment_pages_to_merger]
  | cons a t ih =>
    intro s
    show embedTotal (append_attachment_pages_to_merger v false (processOneAttachment v false s a) t).artifacts = _
    rw [ih, embedTotal_processOneAttachment_false, List.countP_cons]
    by_cases hse : shouldEmbedAttachment v a = true
    · simp only [hse, if_pos]
      omega
    · have hsf : shouldEmbedAttachment v a = false := by
        revert hse
        cases shouldEmbedAttachment v a <;> simp
      simp only [hsf, Bool.false_eq_true, if_false]
      omega

/-- Whatever one loop step does, it only appends to the merger. -/
theorem artifacts_mem_processOneAttachment (v : List Nat → Bool) (d : Bool)
    (s : AttachMergeState) (a : AttachmentData) (x : Artifact)
    (hx : x ∈ s.artifacts) : x ∈ (processOneAttachment v d s a).artifacts := by
  unfold processOneAttachment
  split_ifs <;> simp [hx]

/-- Whatever a run of the loop does, it only appends to the merger. -/
theorem artifacts_mem_append (v : List Nat → Bool) (d : Bool) :
    ∀ (L : List AttachmentData) (s : AttachMergeState) (x : Artifact),
      x ∈ s.artifacts →
      x ∈ (append_attachment_pages_to_merger v d s L).artifacts := by
  intro L
  induction L with
  | nil => intro s x hx; exact hx
  | cons a t ih =>
    intro s x hx
    exact ih _ x (artifacts_mem_processOneAttachment v d s a x hx)

/-- With deduplication disabled, every attachment of the unit that
passes the embed checks has its content artifact in the merger — even
when other attachments of the same unit are broken, empty or
non-`.pdf`. -/
theorem contentPdf_mem_append_false (v : List Nat → Bool) :
    ∀ (L : List AttachmentData) (s : AttachMergeState) (a : AttachmentData),
      a ∈ L → shouldEmbedAttachment v a = true →
      Artifact.contentPdf a.filename a.hash a.content ∈
        (append_attachment_pages_to_merger v false s L).artifacts := by
  intro L
  induction L with
  | nil => intro s a ha _; simp at ha
  | cons b t ih =>
    intro s a ha hse
    rcases List.mem_cons.mp ha with rfl | hat
    · show Artifact.contentPdf a.filename a.hash a.content ∈
        (append_attachment_pages_to_merger v false (processOneAttachment v false s a) t).artifacts
      apply artifacts_mem_append
      have hse' := hse
      simp only [shouldEmbedAttachment, Bool.and_eq_true] at hse'
      obtain ⟨⟨hpdf, hne⟩, hv⟩ := hse'
      unfold processOneAttachment
      rw [if_neg (by simp), if_pos (by simp [hpdf, hne]), if_pos hv]
      simp
    · show Artifact.contentPdf a.filename a.hash a.content ∈
        (append_attachment_pages_to_merger v false (processOneAttachment v false s b) t).artifacts
      exact ih _ a hat hse

/-! ### Helper lemmas: the deduplicating step, two shapes -/

/-- With deduplication on and the fingerprint already in the ledger, the
step emits only the label page carrying the reference notice that names
the first occurrence's filename, and increments the reused counter. -/
theorem processOneAttachment_true_dup (v : List Nat → Bool) (s : AttachMergeState)
    (a : AttachmentData) (w : String) (hl : dictLookup s.seen a.hash = some w) :
    processOneAttachment v true s a =
      { artifacts := s.artifacts ++ [Artifact.labelPage a.filename a.hash (some w)]
        seen := s.seen
        processed := s.processed + 1
        broken := s.broken
        reused := s.reused + 1 } := by
  unfold processOneAttachment
  rw [hl]
  simp

/-- With deduplication on and a fresh fingerprint, the step emits the
plain label page, embeds the content or substitutes the broken notice
according to the embed checks, and records the fingerprint in the
ledger. -/
theorem processOneAttachment_true_new (v : List Nat → Bool) (s : AttachMergeState)
    (a : AttachmentData) (hl : dictLookup s.seen a.hash = none) :
    processOneAttachment v true s a =
      { artifacts := s.artifacts ++ Artifact.labelPage a.filename a.hash none ::
          (if isPdfName a.filename && !a.content.isEmpty then
            (if v a.content then [Artifact.contentPdf a.filename a.hash a.content]
             else [Artifact.brokenNotice a.filename a.hash])
           else [])
        seen := s.seen ++ [(a.hash, a.filename)]
        processed := s.processed + 1
        broken := s.broken ++
          (if isPdfName a.filename && !a.content.isEmpty then
            (if v a.content then [] else [a.filename ++ brokenSuffix])
           else [])
        reused := s.reused } := by
  unfold processOneAttachment
  rw [hl]
  simp only [Option.isSome_none, Bool.and_false, Bool.false_eq_true, if_false]
  rw [dictInsert_of_lookup_none s.seen a.hash a.filename hl]
  split_ifs <;> simp

/-! ### Helper lemmas: evolution of the ledger -/

/-- The ledger after processing a list of attachments: each fresh
fingerprint is appended (with its filename) on first encounter. -/
def ledgerExtend : List (String × String) → List AttachmentData → List (String × String)
  | d, [] => d
  | d, a :: t =>
    ledgerExtend (if (dictLookup d a.hash).isSome then d else d ++ [(a.hash, a.filename)]) t

/-- The number of processed attachments whose fingerprint was already in
the (evolving) ledger at their turn. -/
def dupCountLedger : List (String × String) → List AttachmentData → Nat
  | _, [] => 0
  | d, a :: t =>
    if (dictLookup d a.hash).isSome then 1 + dupCountLedger d t
    else dupCountLedger (d ++ [(a.hash, a.filename)]) t

theorem seen_append_true (v : List Nat → Bool) :
    ∀ (L : List AttachmentData) (s : AttachMergeState),
      (append_attachment_pages_to_merger v true s L).seen = ledgerExtend s.seen L := by
  intro L
  induction L with
  | nil => intro s; rfl
  | cons a t ih =>
    intro s
    show (append_attachment_pages_to_merger v true (processOneAttachment v true s a) t).seen = _
    cases hl : dictLookup s.seen a.hash with
    | some w =>
      rw [processOneAttachment_true_dup v s a w hl, ih]
      simp [ledgerExtend, hl]
    | none =>
      rw [processOneAttachment_true_new v s a hl, ih]
      simp [ledgerExtend, hl]

theorem reused_append_true (v : List Nat → Bool) :
    ∀ (L : List AttachmentData) (s : AttachMergeState),
      (append_attachment_pages_to_merger v true s L).reused =
        s.reused + dupCountLedger s.seen L := by
  intro L
  induction L with
  | nil => intro s; rfl
  | cons a t ih =>
    intro s
    show (append_attachment_pages_to_merger v true (processOneAttachment v true s a) t).reused = _
    cases hl : dictLookup s.seen a.hash with
    | some w =>
      rw [processOneAttachment_true_dup v s a w hl, ih]
      simp [dupCountLedger, hl]
      omega
    | none =>
      rw [processOneAttachment_true_new v s a hl, ih]
      simp [dupCountLedger, hl]

theorem ledgerExtend_keys_nodup :
    ∀ (L : List AttachmentData) (d : List (String × String)),
      (d.map Prod.fst).Nodup → ((ledgerExtend d L).map Prod.fst).Nodup := by
  intro L
  induction L with
  | nil => intro d hd; exact hd
  | cons a t ih =>
    intro d hd
    cases hl : dictLookup d a.hash with
    | some w => simpa [ledgerExtend, hl] using ih d hd
    | none =>
      have hnm : a.hash ∉ d.map Prod.fst := by
        intro hmem
        have := (dictLookup_isSome_iff_mem_keys d a.hash).mpr hmem
        rw [hl] at this
        simp at this
      have : ((d ++ [(a.hash, a.filename)]).map Prod.fst).Nodup := by
        simp [List.nodup_append, hd, hnm]
      simpa [ledgerExtend, hl] using ih _ this

theorem ledgerExtend_entry_first :
    ∀ (L : List AttachmentData) (d : List (String × String)) (p : String × String),
      p ∈ ledgerExtend d L →
      p ∈ d ∨ (dictLookup d p.1 = none ∧
        ∃ a, L.find? (fun x => x.hash == p.1) = some a ∧ a.filename = p.2) := by
  intro L
  induction L with
  | nil =>
    intro d p hp
    exact Or.inl hp
  | cons a t ih =>
    intro d p hp
    cases hl : dictLookup d a.hash with
    | some w =>
      rw [show ledgerExtend d (a :: t) = ledgerExtend d t by simp [ledgerExtend, hl]] at hp
      rcases ih d p hp with hin | ⟨hnone, a', hfind, hfn⟩
      · exact Or.inl hin
      · refine Or.inr ⟨hnone, a', ?_, hfn⟩
        have hne : a.hash ≠ p.1 := by
          intro he
          rw [he] at hl
          rw [hl] at hnone
          simp at hnone
        rw [List.find?_cons_of_neg _ (by simp [hne])]
        exact hfind
    | none =>
      rw [show ledgerExtend d (a :: t) = ledgerExtend (d ++ [(a.hash, a.filename)]) t by
        simp [ledgerExtend, hl]] at hp
      rcases ih _ p hp with hin | ⟨hnone, a', hfind, hfn⟩
      · rcases List.mem_append.mp hin with hin' | hsing
        · exact Or.inl hin'
        · have hpp : p = (a.hash, a.filename) := by simpa using hsing
          refine Or.inr ⟨?_, a, ?_, ?_⟩
          · rw [hpp]; exact hl
          · rw [List.find?_cons_of_pos _ (by simp [hpp])]
          · rw [hpp]
      · have hda : dictLookup (d ++ [(a.hash, a.filename)]) a.hash = some a.filename := by
          rw [dictLookup_append_of_none d _ a.hash hl]
          simp [dictLookup]
        have hne : a.hash ≠ p.1 := by
          intro he
          rw [← he] at hnone
          rw [hda] at hnone
          simp at hnone
        have hdp : dictLookup d p.1 = none := by
          cases hq : dictLookup d p.1 with
          | none => rfl
          | some w =>
            have := dictLookup_append_of_some d [(a.hash, a.filename)] p.1 w hq
            rw [this] at hnone
            simp at hnone
        refine Or.inr ⟨hdp, a', ?_, hfn⟩
        rw [List.find?_cons_of_neg _ (by simp [hne])]
        exact hfind

theorem ledgerExtend_keys_eq_foldl :
    ∀ (L : List AttachmentData) (d : List (String × String)),
      (ledgerExtend d L).map Prod.fst =
        L.foldl (fun ks a => insertNewHash ks a.hash) (d.map Prod.fst) := by
  intro L
  induction L with
  | nil => intro d; rfl
  | cons a t ih =>
    intro d
    cases hl : dictLookup d a.hash with
    | some w =>
      have hmem : a.hash ∈ d.map Prod.fst :=
        (dictLookup_isSome_iff_mem_keys d a.hash).mp (by simp [hl])
      simp only [ledgerExtend, hl, Option.isSome_some, if_pos, List.foldl_cons]
      rw [ih]
      simp [insertNewHash, hmem]
    | none =>
      have hnm : a.hash ∉ d.map Prod.fst := by
        intro hmem
        have := (dictLookup_isSome_iff_mem_keys d a.hash).mpr hmem
        rw [hl] at this
        simp at this
      simp only [ledgerExtend, hl, Option.isSome_none, List.foldl_cons]
      rw [if_neg (by simp)]
      rw [ih]
      simp [insertNewHash, hnm]

theorem dupCount_add_ledger_length :
    ∀ (L : List AttachmentData) (d : List (String × String)),
      dupCountLedger d L + (ledgerExtend d L).length = L.length + d.length := by
  intro L
  induction L with
  | nil => intro d; simp [dupCountLedger, ledgerExtend]
  | cons a t ih =>
    intro d
    cases hl : dictLookup d a.hash with
    | some w =>
      have := ih d
      simp only [dupCountLedger, ledgerExtend, hl, Option.isSome_some, if_pos]
      simp only [List.length_cons]
      omega
    | none =>
      have := ih (d ++ [(a.hash, a.filename)])
      simp only [dupCountLedger, ledgerExtend, hl, Option.isSome_none]
      rw [if_neg (by simp), if_neg (by simp)]
      simp only [List.length_cons]
      simp [List.length_append] at this
      omega

theorem dictLookup_append_single_ne (d : List (String × String)) (k v h : String)
    (hne : k ≠ h) : dictLookup (d ++ [(k, v)]) h = dictLookup d h := by
  cases hq : dictLookup d h with
  | some w => exact dictLookup_append_of_some d _ h w hq
  | none =>
    rw [dictLookup_append_of_none d _ h hq]
    simp [dictLookup, hne]

theorem ledgerExtend_lookup_stable :
    ∀ (L : List AttachmentData) (d : List (String × String)) (h w : String),
      dictLookup d h = some w → dictLookup (ledgerExtend d L) h = some w := by
  intro L
  induction L with
  | nil => intro d h w hw; exact hw
  | cons a t ih =>
    intro d h w hw
    cases hl : dictLookup d a.hash with
    | some u =>
      rw [show ledgerExtend d (a :: t) = ledgerExtend d t by simp [ledgerExtend, hl]]
      exact ih d h w hw
    | none =>
      rw [show ledgerExtend d (a :: t) = ledgerExtend (d ++ [(a.hash, a.filename)]) t by
        simp [ledgerExtend, hl]]
      exact ih _ h w (dictLookup_append_of_some d _ h w hw)

theorem embedCountH_append_list (h : String) (xs ys : List Artifact) :
    embedCountH h (xs ++ ys) = embedCountH h xs + embedCountH h ys := by
  simp [embedCountH, List.countP_append]

theorem refNoticeCountH_append_list (h : String) (xs ys : List Artifact) :
    refNoticeCountH h (xs ++ ys) = refNoticeCountH h xs + refNoticeCountH h ys := by
  simp [refNoticeCountH, List.countP_append]

/-- Count of attachment records with fingerprint `h` in a cons cell. -/
theorem occurrences_cons (a : AttachmentData) (t : List AttachmentData) (h : String) :
    occurrences (a :: t) h = (if a.hash == h then 1 else 0) + occurrences t h := by
  by_cases hah : a.hash = h
  · simp [occurrences, List.filter_cons, hah, Nat.add_comm]
  · simp [occurrences, List.filter_cons, hah]

/-- With deduplication on, the number of embedded copies carrying
fingerprint `h` contributed by a run of the loop is decided by the first
record with that fingerprint — and only when the fingerprint is not
already in the ledger. -/
theorem embedCountH_append_true (v : List Nat → Bool) (h : String) :
    ∀ (L : List AttachmentData) (s : AttachMergeState),
      embedCountH h (append_attachment_pages_to_merger v true s L).artifacts =
        embedCountH h s.artifacts +
          (if (dictLookup s.seen h).isSome then 0
           else match L.find? (fun a => a.hash == h) with
             | some a => if shouldEmbedAttachment v a then 1 else 0
             | none => 0) := by
  intro L
  induction L with
  | nil =>
    intro s
    cases hq : dictLookup s.seen h <;>
      simp [append_attachment_pages_to_merger, hq, List.find?]
  | cons a t ih =>
    intro s
    show embedCountH h (append_attachment_pages_to_merger v true
      (processOneAttachment v true s a) t).artifacts = _
    cases hl : dictLookup s.seen a.hash with
    | some w =>
      rw [processOneAttachment_true_dup v s a w hl, ih]
      simp only [embedCountH_append_list]
      have hlab : embedCountH h [Artifact.labelPage a.filename a.hash (some w)] = 0 := by
        simp [embedCountH]
      rw [hlab]
      cases hq : dictLookup s.seen h with
      | some u => simp
      | none =>
        have hne : a.hash ≠ h := by
          intro he
          rw [he, hq] at hl
          exact Option.noConfusion hl
        rw [List.find?_cons_of_neg _ (by simp [hne])]
        simp
    | none =>
      rw [processOneAttachment_true_new v s a hl, ih]
      by_cases hah : a.hash = h
      · subst hah
        rw [hl]
        have hs' : dictLookup (s.seen ++ [(a.hash, a.filename)]) a.hash = some a.filename := by
          rw [dictLookup_append_of_none s.seen _ a.hash hl]
          simp [dictLookup]
        rw [List.find?_cons_of_pos _ (by simp)]
        simp only [hs', Option.isSome_some, if_pos, Nat.add_zero]
        simp only [embedCountH_append_list]
        have hblock : embedCountH a.hash
            (Artifact.labelPage a.filename a.hash none ::
              (if isPdfName a.filename && !a.content.isEmpty then
                (if v a.content then [Artifact.contentPdf a.filename a.hash a.content]
                 else [Artifact.brokenNotice a.filename a.hash])
               else [])) = if shouldEmbedAttachment v a then 1 else 0 := by
          unfold shouldEmbedAttachment
          split_ifs with h1 h2 h3 h4 <;> simp_all [embedCountH]
        rw [hblock]
        simp
      · have hseen' : dictLookup (s.seen ++ [(a.hash, a.filename)]) h = dictLookup s.seen h :=
          dictLookup_append_single_ne s.seen a.hash a.filename h hah
        rw [hseen']
        rw [List.find?_cons_of_neg _ (by simp [hah])]
        simp only [embedCountH_append_list]
        have hblock : embedCountH h
            (Artifact.labelPage a.filename a.hash none ::
              (if isPdfName a.filename && !a.content.isEmpty then
                (if v a.content then [Artifact.contentPdf a.filename a.hash a.content]
                 else [Artifact.brokenNotice a.filename a.hash])
               else [])) = 0 := by
          split_ifs <;> simp [embedCountH, hah]
        rw [hblock]
        simp

/-- With deduplication on, a run of the loop adds one reference-notice
label per record whose fingerprint was already recorded — that is, every
occurrence after the first (all occurrences, when the fingerprint was
already in the ledger at the start). -/
theorem refNoticeCountH_append_true (v : List Nat → Bool) (h : String) :
    ∀ (L : List AttachmentData) (s : AttachMergeState),
      refNoticeCountH h (append_attachment_pages_to_merger v true s L).artifacts =
        refNoticeCountH h s.artifacts +
          (if (dictLookup s.seen h).isSome then occurrences L h
           else occurrences L h - 1) := by
  intro L
  induction L with
  | nil =>
    intro s
    cases hq : dictLookup s.seen h <;>
      simp [append_attachment_pages_to_merger, hq, occurrences]
  | cons a t ih =>
    intro s
    show refNoticeCountH h (append_attachment_pages_to_merger v true
      (processOneAttachment v true s a) t).artifacts = _
    cases hl : dictLookup s.seen a.hash with
    | some w =>
      rw [processOneAttachment_true_dup v s a w hl, ih]
      simp only [refNoticeCountH_append_list]
      by_cases hah : a.hash = h
      · subst hah
        have hlab : refNoticeCountH a.hash
            [Artifact.labelPage a.filename a.hash (some w)] = 1 := by
          simp [refNoticeCountH]
        rw [hlab, hl]
        simp [occurrences_cons]
        omega
      · have hlab : refNoticeCountH h
            [Artifact.labelPage a.filename a.hash (some w)] = 0 := by
          simp [refNoticeCountH, hah]
        rw [hlab]
        rw [occurrences_cons]
        simp only [beq_eq_false_iff_ne, ne_eq, hah, not_false_eq_true, beq_iff_eq, if_neg hah]
        cases hq : dictLookup s.seen h <;> simp
    | none =>
      rw [processOneAttachment_true_new v s a hl, ih]
      have hblock : refNoticeCountH h
          (Artifact.labelPage a.filename a.hash none ::
            (if isPdfName a.filename && !a.content.isEmpty then
              (if v a.content then [Artifact.contentPdf a.filename a.hash a.content]
               else [Artifact.brokenNotice a.filename a.hash])
             else [])) = 0 := by
        split_ifs <;> simp [refNoticeCountH]
      simp only [refNoticeCountH_append_list, hblock, Nat.add_zero]
      by_cases hah : a.hash = h
      · subst hah
        rw [hl]
        have hs' : dictLookup (s.seen ++ [(a.hash, a.filename)]) a.hash = some a.filename := by
          rw [dictLookup_append_of_none s.seen _ a.hash hl]
          simp [dictLookup]
        simp only [hs', Option.isSome_some, if_pos]
        rw [occurrences_cons]
        simp
      · have hseen' : dictLookup (s.seen ++ [(a.hash, a.filename)]) h = dictLookup s.seen h :=
          dictLookup_append_single_ne s.seen a.hash a.filename h hah
        rw [hseen']
        rw [occurrences_cons]
        simp only [beq_iff_eq, if_neg hah, Nat.zero_add]

/-- A label page carrying a reference notice always names the filename
recorded in the final ledger for its fingerprint. -/
theorem dupLabel_names_ledger (v : List Nat → Bool) :
    ∀ (L : List AttachmentData) (s : AttachMergeState) (fn h fn' : String),
      Artifact.labelPage fn h (some fn') ∈
        (append_attachment_pages_to_merger v true s L).artifacts →
      Artifact.labelPage fn h (some fn') ∈ s.artifacts ∨
        dictLookup (append_attachment_pages_to_merger v true s L).seen h = some fn' := by
  intro L
  induction L with
  | nil =>
    intro s fn h fn' hmem
    exact Or.inl hmem
  | cons a t ih =>
    intro s fn h fn' hmem
    rw [show append_attachment_pages_to_merger v true s (a :: t) =
      append_attachment_pages_to_merger v true (processOneAttachment v true s a) t from rfl]
      at hmem ⊢
    cases hl : dictLookup s.seen a.hash with
    | some w =>
      rw [processOneAttachment_true_dup v s a w hl] at hmem ⊢
      rcases ih _ fn h fn' hmem with hin | hlook
      · rcases List.mem_append.mp hin with hin' | hsing
        · exact Or.inl hin'
        · have heq : fn = a.filename ∧ h = a.hash ∧ fn' = w := by
            simpa using hsing
          obtain ⟨hfn, hh, hw⟩ := heq
          right
          rw [seen_append_true]
          apply ledgerExtend_lookup_stable
          rw [hh, hw]
          exact hl
      · exact Or.inr hlook
    | none =>
      rw [processOneAttachment_true_new v s a hl] at hmem ⊢
      rcases ih _ fn h fn' hmem with hin | hlook
      · rcases List.mem_append.mp hin with hin' | hblock
        · exact Or.inl hin'
        · exfalso
          rcases List.mem_cons.mp hblock with hlab | hrest
          · exact Option.noConfusion (Artifact.labelPage.inj hlab).2.2
          · revert hrest
            split_ifs with h1 h2 <;> simp
      · exact Or.inr hlook

/-! ### Helper lemmas: the reused counter as a sum over fingerprints -/

theorem mem_insertNewHash (ks : List String) (x h : String) :
    h ∈ insertNewHash ks x ↔ h ∈ ks ∨ h = x := by
  unfold insertNewHash
  split_ifs with hx
  · constructor
    · exact fun hh => Or.inl hh
    · rintro (hh | rfl)
      · exact hh
      · exact hx
  · simp [List.mem_append]

theorem mem_foldl_insertNewHash :
    ∀ (L : List AttachmentData) (ks : List String) (h : String),
      h ∈ L.foldl (fun ks a => insertNewHash ks a.hash) ks ↔
        h ∈ ks ∨ ∃ a ∈ L, a.hash = h := by
  intro L
  induction L with
  | nil => intro ks h; simp
  | cons a t ih =>
    intro ks h
    simp only [List.foldl_cons]
    rw [ih]
    rw [mem_insertNewHash]
    constructor
    · rintro ((hks | rfl) | ⟨b, hb, rfl⟩)
      · exact Or.inl hks
      · exact Or.inr ⟨a, by simp⟩
      · exact Or.inr ⟨b, by simp [hb]⟩
    · rintro (hks | ⟨b, hb, rfl⟩)
      · exact Or.inl (Or.inl hks)
      · rcases List.mem_cons.mp hb with rfl | hbt
        · exact Or.inl (Or.inr rfl)
        · exact Or.inr ⟨b, hbt, rfl⟩

theorem mem_distinctHashes (L : List AttachmentData) (h : String) :
    h ∈ distinctHashes L ↔ ∃ a ∈ L, a.hash = h := by
  unfold distinctHashes
  rw [mem_foldl_insertNewHash]
  simp

theorem distinctHashes_eq_ledger_keys (L : List AttachmentData) :
    distinctHashes L = (ledgerExtend [] L).map Prod.fst := by
  rw [ledgerExtend_keys_eq_foldl]
  rfl

theorem nodup_distinctHashes (L : List AttachmentData) :
    (distinctHashes L).Nodup := by
  rw [distinctHashes_eq_ledger_keys]
  exact ledgerExtend_keys_nodup L [] (by simp)

theorem occurrences_pos_of_mem (L : List AttachmentData) (h : String)
    (hm : h ∈ distinctHashes L) : 1 ≤ occurrences L h := by
  rcases (mem_distinctHashes L h).mp hm with ⟨a, ha, rfl⟩
  have : a ∈ L.filter (fun x => x.hash == a.hash) := by
    rw [List.mem_filter]
    exact ⟨ha, by simp⟩
  have hlen : 0 < (L.filter (fun x => x.hash == a.hash)).length :=
    List.length_pos.mpr (List.ne_nil_of_mem this)
  exact hlen

theorem occurrences_filter_ne (h h' : String) (hne : h' ≠ h) :
    ∀ L : List AttachmentData,
      occurrences (L.filter (fun a => !(a.hash == h))) h' = occurrences L h' := by
  intro L
  induction L with
  | nil => rfl
  | cons a t ih =>
    by_cases hah : a.hash = h
    · have hah' : (a.hash == h') = false := by
        simp only [beq_eq_false_iff_ne]
        rw [hah]
        exact Ne.symm hne
      simp only [List.filter_cons, hah, beq_self_eq_true, Bool.not_true,
        Bool.false_eq_true, if_false]
      rw [ih, occurrences_cons, hah']
      simp
    · simp [List.filter_cons, hah, occurrences_cons, ih]

theorem length_eq_occ_add_filter (h : String) :
    ∀ L : List AttachmentData,
      L.length = occurrences L h + (L.filter (fun a => !(a.hash == h))).length := by
  intro L
  induction L with
  | nil => rfl
  | cons a t ih =>
    by_cases hah : a.hash = h
    · simp only [List.length_cons, occurrences_cons, List.filter_cons, hah]
      simp only [beq_self_eq_true, if_pos, Bool.not_true]
      simp only [ih]
      simp [occurrences]
      omega
    · simp only [List.length_cons, occurrences_cons, List.filter_cons]
      have : (a.hash == h) = false := by simp [hah]
      simp only [this, Bool.not_false, if_neg, List.length_cons]
      simp only [ih]
      simp [occurrences]
      omega

theorem listMapCongrMem {α β : Type} (f g : α → β) :
    ∀ l : List α, (∀ a ∈ l, f a = g a) → l.map f = l.map g := by
  intro l
  induction l with
  | nil => intro _; rfl
  | cons a t ih =>
    intro hall
    simp only [List.map_cons]
    rw [hall a (by simp), ih (fun x hx => hall x (by simp [hx]))]

theorem sum_occurrences_eq_length :
    ∀ (K : List String) (L : List AttachmentData),
      K.Nodup → (∀ a ∈ L, a.hash ∈ K) →
      (K.map (fun h => occurrences L h)).sum = L.length := by
  intro K
  induction K with
  | nil =>
    intro L _ hcov
    have : L = [] := List.eq_nil_iff_forall_not_mem.mpr (fun a ha => by
      have := hcov a ha
      simp at this)
    simp [this]
  | cons h K' ih =>
    intro L hnd hcov
    have hndK' : K'.Nodup := (List.nodup_cons.mp hnd).2
    have hnmem : h ∉ K' := (List.nodup_cons.mp hnd).1
    have hmapeq : K'.map (fun h' => occurrences L h') =
        K'.map (fun h' => occurrences (L.filter (fun a => !(a.hash == h))) h') := by
      apply listMapCongrMem
      intro h' hh'
      have hne : h' ≠ h := fun he => hnmem (he ▸ hh')
      exact (occurrences_filter_ne h h' hne L).symm
    have hcov' : ∀ a ∈ L.filter (fun x => !(x.hash == h)), a.hash ∈ K' := by
      intro a ha
      rcases List.mem_filter.mp ha with ⟨haL, hbool⟩
      have hne : a.hash ≠ h := by
        intro he
        rw [he] at hbool
        simp at hbool
      rcases List.mem_cons.mp (hcov a haL) with hh | hK2
      · exact absurd hh hne
      · exact hK2
    simp only [List.map_cons, List.sum_cons]
    rw [hmapeq, ih _ hndK' hcov']
    rw [length_eq_occ_add_filter h L]

theorem sum_pred_add_length (f : String → Nat) :
    ∀ K : List String, (∀ h ∈ K, 1 ≤ f h) →
      (K.map (fun h => f h - 1)).sum + K.length = (K.map f).sum := by
  intro K
  induction K with
  | nil => intro _; rfl
  | cons h K' ih =>
    intro hall
    have h1 : 1 ≤ f h := hall h (by simp)
    have := ih (fun x hx => hall x (by simp [hx]))
    simp only [List.map_cons, List.sum_cons, List.length_cons]
    omega

/-- The reused counter of a unit started on a fresh ledger equals the
sum over fingerprints of (occurrences − 1). -/
theorem reused_eq_reusedSpec (v : List Nat → Bool) (L : List AttachmentData) :
    (append_attachment_pages_to_merger v true emptyAttachState L).reused = reusedSpec L := by
  have h1 : (append_attachment_pages_to_merger v true emptyAttachState L).reused =
      dupCountLedger [] L := by
    rw [reused_append_true]
    simp [emptyAttachState]
  have h2 : dupCountLedger [] L + (ledgerExtend [] L).length = L.length := by
    have := dupCount_add_ledger_length L []
    simpa using this
  have h3 : (ledgerExtend [] L).length = (distinctHashes L).length := by
    rw [distinctHashes_eq_ledger_keys]
    simp
  have h4 : ((distinctHashes L).map (fun h => occurrences L h)).sum = L.length := by
    apply sum_occurrences_eq_length _ _ (nodup_distinctHashes L)
    intro a ha
    rw [mem_distinctHashes]
    exact ⟨a, ha, rfl⟩
  have h5 : reusedSpec L + (distinctHashes L).length =
      ((distinctHashes L).map (fun h => occurrences L h)).sum := by
    unfold reusedSpec
    exact sum_pred_add_length _ _ (fun h hh => occurrences_pos_of_mem L h hh)
  omega

/-! ### Claim C2: the dedup ledger invariant -/

/-- Validation for the C2 counterexample: the shared bytes are a
corrupted PDF (`PyPDF2.PdfReader` rejects them). -/
def c2ValidatePdf : List Nat → Bool := fun _ => false

/-- Two attachments with identical (corrupted) content, hence identical
fingerprint, under different filenames, inside one merge unit. -/
def c2Atts : List AttachmentData :=
  [⟨"a.pdf", [0], "h"⟩, ⟨"b.pdf", [0], "h"⟩]

/-- The executed C2 unit (deduplication on, fresh ledger). -/
def c2Unit : AttachMergeState :=
  append_attachment_pages_to_merger c2ValidatePdf true emptyAttachState c2Atts

/-- Claim C2 counterexample: the claim states that among all records
sharing a fingerprint, *exactly the first* has its content embedded.
When the shared bytes fail validation, the first occurrence gets a
broken notice instead of embedded content (lines 296–303) while the
fingerprint is still recorded (line 309), so the later occurrence is a
reference notice and *no* record with that fingerprint is embedded:
the embedded count for the fingerprint is 0, not 1. -/
theorem c2_counterexample :
    embedCountH "h" c2Unit.artifacts = 0 ∧
    refNoticeCountH "h" c2Unit.artifacts = 1 ∧
    c2Unit.reused = 1 ∧
    ¬ embedCountH "h" c2Unit.artifacts = 1 := by
  refine ⟨rfl, rfl, rfl, ?_⟩
  intro hcontra
  rw [show embedCountH "h" c2Unit.artifacts = 0 from rfl] at hcontra
  exact absurd hcontra (by decide)

/-- Claim C2 (amended): for every merge unit and every fingerprint, with
deduplication enabled and a fresh ledger, among the records sharing that
fingerprint only the first (in encounter order) can have its content
embedded — it is embedded precisely when it passes the embed checks
(`.pdf` filename, non-empty bytes, validation); every subsequent one is
rendered as a reference notice, on its label page, naming the first
occurrence's filename; the fingerprint appears in the unit's ledger at
most once, mapped to the first occurrence's filename; and the reused
counter equals the sum over fingerprints of (occurrences − 1). -/
theorem c2_dedup_ledger_amended (v : List Nat → Bool) (L : List AttachmentData) :
    ((append_attachment_pages_to_merger v true emptyAttachState L).seen.map
        Prod.fst).Nodup ∧
    (∀ p ∈ (append_attachment_pages_to_merger v true emptyAttachState L).seen,
      ∃ a, L.find? (fun x => x.hash == p.1) = some a ∧ a.filename = p.2) ∧
    (∀ h : String,
      embedCountH h (append_attachment_pages_to_merger v true emptyAttachState L).artifacts =
        (match L.find? (fun a => a.hash == h) with
         | some a => if shouldEmbedAttachment v a then 1 else 0
         | none => 0)) ∧
    (∀ h : String,
      refNoticeCountH h
          (append_attachment_pages_to_merger v true emptyAttachState L).artifacts =
        occurrences L h - 1) ∧
    (∀ fn h fn' : String,
      Artifact.labelPage fn h (some fn') ∈
          (append_attachment_pages_to_merger v true emptyAttachState L).artifacts →
      ∃ a, L.find? (fun x => x.hash == h) = some a ∧ a.filename = fn') ∧
    (append_attachment_pages_to_merger v true emptyAttachState L).reused = reusedSpec L := by
  refine ⟨?_, ?_, ?_, ?_, ?_, reused_eq_reusedSpec v L⟩
  · rw [seen_append_true]
    exact ledgerExtend_keys_nodup L emptyAttachState.seen (by simp [emptyAttachState])
  · intro p hp
    rw [seen_append_true] at hp
    rcases ledgerExtend_entry_first L emptyAttachState.seen p hp with hin | ⟨_, a, hfind, hfn⟩
    · simp [emptyAttachState] at hin
    · exact ⟨a, hfind, hfn⟩
  · intro h
    rw [embedCountH_append_true]
    simp [emptyAttachState, embedCountH, dictLookup]
  · intro h
    rw [refNoticeCountH_append_true]
    simp [emptyAttachState, refNoticeCountH, dictLookup]
  · intro fn h fn' hmem
    rcases dupLabel_names_ledger v L emptyAttachState fn h fn' hmem with hin | hlook
    · simp [emptyAttachState] at hin
    · rw [seen_append_true] at hlook
      have hpm := dictLookup_mem _ _ _ hlook
      rcases ledgerExtend_entry_first L emptyAttachState.seen (h, fn') hpm
        with hin | ⟨_, a, hfind, hfn⟩
      · simp [emptyAttachState] at hin
      · exact ⟨a, hfind, hfn⟩

/-- Concrete inputs for the C2 witness: two records share fingerprint
`h1`, a third carries `h2`; non-empty bytes validate. -/
def c2wAtts : List AttachmentData :=
  [⟨"a.pdf", [1], "h1"⟩, ⟨"b.pdf", [1], "h1"⟩, ⟨"c.pdf", [2], "h2"⟩]

/-- Witness for `c2_dedup_ledger_amended` at a concrete unit: the
reference-notice label emitted for the duplicate `b.pdf` names the first
occurrence `a.pdf` of the shared fingerprint. -/
theorem c2_dedup_ledger_amended_witness :
    ∃ a, c2wAtts.find? (fun x => x.hash == "h1") = some a ∧ a.filename = "a.pdf" :=
  (c2_dedup_ledger_amended (fun c => !c.isEmpty) c2wAtts).2.2.2.2.1 "b.pdf" "h1" "a.pdf"
    (by decide)

/-! ### Claim C3: deduplication disabled -/

/-- With deduplication disabled a batch execution never touches the
reused counter. -/
theorem reused_execMergeBatch_false (v : List Nat → Bool) (batch : List MergeResult) :
    (execMergeBatch v false batch).reused = 0 := by
  suffices h : ∀ (items : List MergeResult) (s : AttachMergeState),
      (items.foldl
        (fun s r =>
          let s' := match r.bodyPath with
            | some p => { s with artifacts := s.artifacts ++ [Artifact.bodyPdf p] }
            | none => s
          let pdfAtts := r.atts.filter (fun a => isPdfName a.filename)
          if pdfAtts.isEmpty then s'
          else append_attachment_pages_to_merger v false s' pdfAtts) s).reused = s.reused by
    rw [execMergeBatch]
    rw [h batch emptyAttachState]
    rfl
  intro items
  induction items with
  | nil => intro s; rfl
  | cons r rest ih =>
    intro s
    rw [List.foldl_cons, ih]
    cases hb : r.bodyPath <;>
      simp [hb, reused_append_false] <;>
      split_ifs <;>
      simp [reused_append_false]

theorem reusedTotal_execAllBatches_false (v : List Nat → Bool)
    (batches : List (List MergeResult)) :
    (execAllBatches v false batches).reusedTotal = 0 := by
  suffices h : ∀ (bs : List (List MergeResult)) (tot : RunTotals),
      (bs.foldl
        (fun tot batch =>
          let u := execMergeBatch v false batch
          { processedTotal := tot.processedTotal + u.processed
            brokenTotal := tot.brokenTotal ++ u.broken
            reusedTotal := tot.reusedTotal + u.reused
            partsArtifacts := tot.partsArtifacts ++ [u.artifacts] }) tot).reusedTotal =
        tot.reusedTotal by
    rw [execAllBatches, h]
  intro bs
  induction bs with
  | nil => intro tot; rfl
  | cons b rest ih =>
    intro tot
    rw [List.foldl_cons, ih]
    simp [reused_execMergeBatch_false]

theorem reused_individual_results_zero (v : List Nat → Bool)
    (parse : TaskInfo → Except String (List AttachmentData))
    (outPathOf : TaskInfo → String) (t : TaskInfo) :
    (process_email_task_individual v false parse outPathOf t).reusedCount = 0 := by
  unfold process_email_task_individual
  split_ifs
  · rfl
  · cases hp : parse t with
    | ok atts =>
      simp only
      show (eml_to_output_for_individual_file v false atts).2.2 = 0
      unfold eml_to_output_for_individual_file
      simp [reused_append_false, emptyAttachState]
    | error e => rfl

/-- With deduplication disabled a batch execution embeds, item by item,
exactly the `.pdf`-filtered attachments that pass the embed checks —
broken attachments in the same unit do not suppress the others. -/
theorem embedTotal_execMergeBatch_false (v : List Nat → Bool) (batch : List MergeResult) :
    embedTotal (execMergeBatch v false batch).artifacts =
      (batch.map (fun r =>
        (r.atts.filter (fun a => isPdfName a.filename)).countP
          (fun a => shouldEmbedAttachment v a))).sum := by
  unfold execMergeBatch
  suffices h : ∀ (l : List MergeResult) (s : AttachMergeState),
      embedTotal ((l.foldl
        (fun s r =>
          let s' := match r.bodyPath with
            | some p => { s with artifacts := s.artifacts ++ [Artifact.bodyPdf p] }
            | none => s
          let pdfAtts := r.atts.filter (fun a => isPdfName a.filename)
          if pdfAtts.isEmpty then s'
          else append_attachment_pages_to_merger v false s' pdfAtts) s).artifacts) =
        embedTotal s.artifacts +
          (l.map (fun r =>
            (r.atts.filter (fun a => isPdfName a.filename)).countP
              (fun a => shouldEmbedAttachment v a))).sum by
    rw [h batch emptyAttachState]
    simp [emptyAttachState, embedTotal]
  intro l
  induction l with
  | nil => intro s; simp
  | cons r t ih =>
    intro s
    rw [List.foldl_cons, ih]
    simp only [List.map_cons, List.sum_cons]
    cases hb : r.bodyPath with
    | none =>
      simp only [hb]
      split_ifs with hemp
      · have hnil : r.atts.filter (fun a => isPdfName a.filename) = [] := by
          simpa [List.isEmpty_iff] using hemp
        rw [hnil]
        simp
      · rw [embedTotal_append_false]
        omega
    | some p =>
      simp only [hb]
      split_ifs with hemp
      · have hnil : r.atts.filter (fun a => isPdfName a.filename) = [] := by
          simpa [List.isEmpty_iff] using hemp
        rw [hnil]
        have hb2 : embedTotal
            ({ s with artifacts := s.artifacts ++ [Artifact.bodyPdf p] } :
              AttachMergeState).artifacts = embedTotal s.artifacts := by
          simp [embedTotal, List.countP_append]
        simp [hb2]
      · rw [embedTotal_append_false]
        have hb2 : embedTotal
            ({ s with artifacts := s.artifacts ++ [Artifact.bodyPdf p] } :
              AttachMergeState).artifacts = embedTotal s.artifacts := by
          simp [embedTotal, List.countP_append]
        rw [hb2]
        omega

/-- Claim C3: with deduplication disabled, the reported reused counter
is 0 — in merge mode (run totals) and in individual mode (run totals) —
and every document-type (`.pdf`-named) attachment whose bytes pass the
embed checks (non-empty and validating) has its content embedded:
per merge unit and per batch the embedded-content count equals the count
of attachments passing the checks, each such attachment's content
artifact is present, and this holds in units that also contain broken or
non-validating attachments, and when several attachments share an
identical fingerprint. -/
theorem c3_no_dedup_embeds_all (v : List Nat → Bool) (sizeOf : String → Rat)
    (pagesOf : String → Nat) (splitsize : Rat) (splitpages : Nat)
    (inner : TaskInfo → Except String (Option String × List AttachmentData))
    (parse : TaskInfo → Except String (List AttachmentData))
    (outPathOf : TaskInfo → String) (tasks : List TaskInfo) :
    (convertMergeRun v false sizeOf pagesOf splitsize splitpages inner tasks).2.1.reusedTotal
        = 0 ∧
    (convertIndividualRun v false parse outPathOf tasks).2.2.2 = 0 ∧
    (∀ batch : List MergeResult,
      embedTotal (execMergeBatch v false batch).artifacts =
        (batch.map (fun r =>
          (r.atts.filter (fun a => isPdfName a.filename)).countP
            (fun a => shouldEmbedAttachment v a))).sum) ∧
    (∀ (s : AttachMergeState) (L : List AttachmentData),
      embedTotal (append_attachment_pages_to_merger v false s L).artifacts =
          embedTotal s.artifacts + L.countP (fun a => shouldEmbedAttachment v a) ∧
        (append_attachment_pages_to_merger v false s L).reused = s.reused) ∧
    (∀ (s : AttachMergeState) (L : List AttachmentData) (a : AttachmentData),
      a ∈ L → shouldEmbedAttachment v a = true →
      Artifact.contentPdf a.filename a.hash a.content ∈
        (append_attachment_pages_to_merger v false s L).artifacts) := by
  refine ⟨?_, ?_, fun batch => embedTotal_execMergeBatch_false v batch, ?_, ?_⟩
  · unfold convertMergeRun
    simp only
    exact reusedTotal_execAllBatches_false v _
  · unfold convertIndividualRun
    simp only
    suffices h : ∀ (rs : List IndividualResult) (acc : Nat × List String × Nat),
        (∀ r ∈ rs, r.reusedCount = 0) →
        (rs.foldl (fun acc r =>
          (acc.1 + r.attCount, acc.2.1 ++ r.brokenList, acc.2.2 + r.reusedCount)) acc).2.2 =
          acc.2.2 by
      apply h
      intro r hr
      rcases List.mem_filter.mp hr with ⟨hm, _⟩
      rcases List.mem_map.mp hm with ⟨t, _, rfl⟩
      exact reused_individual_results_zero v parse outPathOf t
    intro rs
    induction rs with
    | nil => intro acc _; rfl
    | cons r rest ih =>
      intro acc hall
      rw [List.foldl_cons, ih _ (fun x hx => hall x (by simp [hx]))]
      rw [hall r (by simp)]
      rfl
  · intro s L
    exact ⟨embedTotal_append_false v L s, reused_append_false v L s⟩
  · intro s L a ha hse
    exact contentPdf_mem_append_false v L s a ha hse

/-- Concrete attachments for the C3 witness: a mixed unit — a validating
`.pdf`, a corrupted `.pdf` (bytes `[9]` fail validation), and a third
validating `.pdf` sharing the first one's content and fingerprint. -/
def c3wAtts : List AttachmentData :=
  [⟨"a.pdf", [1], "h"⟩, ⟨"bad.pdf", [9], "g"⟩, ⟨"b.pdf", [1], "h"⟩]

/-- Witness for `c3_no_dedup_embeds_all`: in the mixed unit, with
deduplication off, the duplicate validating attachment is still
embedded, the embedded count equals the count of attachments passing the
checks, and the reused counter stays 0. -/
theorem c3_no_dedup_embeds_all_witness :
    Artifact.contentPdf "b.pdf" "h" [1] ∈
      (append_attachment_pages_to_merger (fun c => !(c == [9])) false
        emptyAttachState c3wAtts).artifacts ∧
    embedTotal (append_attachment_pages_to_merger (fun c => !(c == [9])) false
        emptyAttachState c3wAtts).artifacts =
      embedTotal emptyAttachState.artifacts +
        c3wAtts.countP (fun a => shouldEmbedAttachment (fun c => !(c == [9])) a) ∧
    (append_attachment_pages_to_merger (fun c => !(c == [9])) false
        emptyAttachState c3wAtts).reused = emptyAttachState.reused := by
  have h := c3_no_dedup_embeds_all (fun c => !(c == [9])) (fun _ => 0) (fun _ => 0) 0 0
    (fun _ => Except.error "unused") (fun _ => Except.error "unused") (fun _ => "unused") []
  exact ⟨h.2.2.2.2 emptyAttachState c3wAtts ⟨"b.pdf", [1], "h"⟩ (by decide) (by decide),
    (h.2.2.2.1 emptyAttachState c3wAtts).1, (h.2.2.2.1 emptyAttachState c3wAtts).2⟩

/-! ### Claim C4: the page-threshold bound -/

/-- Invariant proof for the accumulation loop: whenever the page
threshold is positive, every batch it ever flushes either respects the
threshold or is a single (oversized) item placed alone. -/
theorem assembleGo_pages_bound (sizeOf : String → Rat) (pagesOf : String → Nat)
    (splitsize : Rat) (P : Nat) (hP : 0 < P) :
    ∀ (results cur : List MergeResult) (accSize : Rat) (accPages : Nat),
      accPages = partPagesEstimate pagesOf cur →
      (cur ≠ [] → cur.length = 1 ∨ accPages ≤ P) →
      ∀ part ∈ assembleGo sizeOf pagesOf splitsize P results cur accSize accPages,
        partPagesEstimate pagesOf part ≤ P ∨ part.length = 1 := by
  intro results
  induction results with
  | nil =>
    intro cur accSize accPages hacc hinv part hpart
    simp only [assembleGo] at hpart
    split_ifs at hpart with hemp
    · simp at hpart
    · have : part = cur := by simpa using hpart
      subst this
      rcases hinv (by simpa [List.isEmpty_iff] using hemp) with h1 | h2
      · exact Or.inr h1
      · exact Or.inl (hacc ▸ h2)
  | cons r rest ih =>
    intro cur accSize accPages hacc hinv part hpart
    cases hb : r.bodyPath with
    | none =>
      rw [show assembleGo sizeOf pagesOf splitsize P (r :: rest) cur accSize accPages =
        assembleGo sizeOf pagesOf splitsize P rest cur accSize accPages by
          simp [assembleGo, hb]] at hpart
      exact ih cur accSize accPages hacc hinv part hpart
    | some p =>
      have hcand : candidateSize sizeOf r = sizeOf p := by simp [candidateSize, hb]
      have hcandp : candidatePages pagesOf r =
          pagesOf p + (r.atts.filter (fun a => isPdfName a.filename)).length := by
        simp [candidatePages, hb]
      simp only [assembleGo, hb] at hpart
      by_cases hflushS : ¬ cur.isEmpty = true ∧ splitsize > 0 ∧
          accSize + candidateSize sizeOf r > splitsize
      · rw [if_pos hflushS] at hpart
        rcases List.mem_cons.mp hpart with rfl | hrest
        · rcases hinv (by simpa [List.isEmpty_iff] using hflushS.1) with h1 | h2
          · exact Or.inr h1
          · exact Or.inl (hacc ▸ h2)
        · exact ih [r] _ _ (by simp [partPagesEstimate]) (fun _ => Or.inl rfl) part hrest
      · rw [if_neg hflushS] at hpart
        by_cases hflushP : ¬ cur.isEmpty = true ∧ P > 0 ∧
            accPages + candidatePages pagesOf r > P
        · rw [if_pos hflushP] at hpart
          rcases List.mem_cons.mp hpart with rfl | hrest
          · rcases hinv (by simpa [List.isEmpty_iff] using hflushP.1) with h1 | h2
            · exact Or.inr h1
            · exact Or.inl (hacc ▸ h2)
          · exact ih [r] _ _ (by simp [partPagesEstimate]) (fun _ => Or.inl rfl) part hrest
        · rw [if_neg hflushP] at hpart
          apply ih (cur ++ [r]) _ _ _ _ part hpart
          · simp [partPagesEstimate, hacc]
          · intro _
            by_cases hce : cur.isEmpty = true
            · left
              have : cur = [] := by simpa [List.isEmpty_iff] using hce
              simp [this]
            · right
              have hnotgt : ¬ accPages + candidatePages pagesOf r > P := by
                intro hgt
                exact hflushP ⟨hce, hP, hgt⟩
              omega

/-- Claim C4: for every run in merge mode with a configured page
threshold P > 0 (and any size threshold), every flushed output part's
body-plus-attachment page estimate at flush time is at most P, unless
the part consists of a single oversized item that was placed alone into
its own unit. -/
theorem c4_page_threshold_bound (sizeOf : String → Rat) (pagesOf : String → Nat)
    (splitsize : Rat) (P : Nat) (results : List MergeResult) (hP : 0 < P) :
    ∀ part ∈ assembleBatches sizeOf pagesOf splitsize P results,
      partPagesEstimate pagesOf part ≤ P ∨ part.length = 1 := by
  intro part hpart
  exact assembleGo_pages_bound sizeOf pagesOf splitsize P hP results [] 0 0 rfl
    (fun h => absurd rfl h) part hpart

/-- Results for the C4 witness: body pages 2 and 3 with threshold 2 —
the second item exceeds the threshold on its own and is flushed alone. -/
def c4wResults : List MergeResult :=
  [ { bodyPath := some "xx", atts := [], origId := "a" },
    { bodyPath := some "xxx", atts := [], origId := "b" } ]

/-- Witness for `c4_page_threshold_bound`: the oversized second item
forms its own single-item part. -/
theorem c4_page_threshold_bound_witness :
    partPagesEstimate (fun p => p.data.length)
        [({ bodyPath := some "xxx", atts := [], origId := "b" } : MergeResult)] ≤ 2 ∨
      ([({ bodyPath := some "xxx", atts := [], origId := "b" } : MergeResult)]).length = 1 :=
  c4_page_threshold_bound (fun _ => 0) (fun p => p.data.length) 0 2 c4wResults
    (by decide) _ (by decide)

/-! ### Claim C6: task isolation -/

/-- Claim C6: every failure inside a task is caught inside the task and
becomes a result carrying the error marker (a `None` output path); every
submitted task yields exactly one collected result, each result depends
only on its own task, and the run completes — in merge mode and in
individual mode. -/
theorem c6_task_isolation
    (inner : TaskInfo → Except String (Option String × List AttachmentData))
    (v : List Nat → Bool) (d : Bool)
    (parse : TaskInfo → Except String (List AttachmentData))
    (outPathOf : TaskInfo → String) (tasks : List TaskInfo) (i : Nat)
    (hi : i < tasks.length) :
    (runPool inner tasks).length = tasks.length ∧
    (runPool inner tasks)[i]? = some (process_email_task inner (tasks.get ⟨i, hi⟩)) ∧
    (∀ e, inner (tasks.get ⟨i, hi⟩) = Except.error e →
      process_email_task inner (tasks.get ⟨i, hi⟩) =
        { bodyPath := none, atts := [], origId := taskIdentifier (tasks.get ⟨i, hi⟩) }) ∧
    (tasks.map (process_email_task_individual v d parse outPathOf)).length = tasks.length ∧
    (∀ e, parse (tasks.get ⟨i, hi⟩) = Except.error e →
      process_email_task_individual v d parse outPathOf (tasks.get ⟨i, hi⟩) =
        { outPath := none, attCount := 0, brokenList := [], reusedCount := 0,
          origId := taskIdentifier (tasks.get ⟨i, hi⟩) }) := by
  refine ⟨by simp [runPool], ?_, ?_, by simp, ?_⟩
  · simp [runPool, List.getElem?_map, List.getElem?_eq_getElem hi, List.get_eq_getElem]
  · intro e he
    unfold process_email_task
    split_ifs with ht
    · rfl
    · rw [he]
  · intro e he
    unfold process_email_task_individual
    split_ifs with ht
    · rfl
    · rw [he]

/-- The single-task run for the C6 witness: its interior raises. -/
def c6wTasks : List TaskInfo := [{ taskType := "eml", locator := "bad.eml", msgIndex := 0 }]

/-- Witness for `c6_task_isolation`: a task whose interior raises yields
the `(None, [], identifier)` error marker instead of propagating. -/
theorem c6_task_isolation_witness :
    process_email_task (fun _ => Except.error "render failed")
        (c6wTasks.get ⟨0, by decide⟩) =
      { bodyPath := none, atts := [],
        origId := taskIdentifier (c6wTasks.get ⟨0, by decide⟩) } :=
  (c6_task_isolation (fun _ => Except.error "render failed") (fun _ => true) true
      (fun _ => Except.error "parse failed") (fun _ => "out") c6wTasks 0
      (by decide)).2.2.1 "render failed" rfl

/-! ### Claim C8: broken attachments -/

/-- Claim C8: an attachment whose bytes fail document validation gets
the broken-notice artifact substituted for its content, its filename
(annotated with the reason) recorded in the broken list, and — with
deduplication on — its fingerprint still recorded in the ledger; the
merge unit is not aborted: an item whose only attachment is broken
produces its body followed by one label page and one broken-notice page,
and any further attachments are still all processed. -/
theorem c8_broken_attachment (v : List Nat → Bool) (d : Bool)
    (p oid fn h : String) (c : List Nat) (rest : List AttachmentData)
    (hpdf : isPdfName fn = true) (hne : c ≠ []) (hv : v c = false) :
    (execMergeBatch v d [{ bodyPath := some p, atts := [⟨fn, c, h⟩], origId := oid }]).artifacts
        = [Artifact.bodyPdf p, Artifact.labelPage fn h none, Artifact.brokenNotice fn h] ∧
    (execMergeBatch v d [{ bodyPath := some p, atts := [⟨fn, c, h⟩], origId := oid }]).broken
        = [fn ++ brokenSuffix] ∧
    (d = true →
      (execMergeBatch v d [{ bodyPath := some p, atts := [⟨fn, c, h⟩], origId := oid }]).seen
        = [(h, fn)]) ∧
    (∀ s : AttachMergeState,
      (append_attachment_pages_to_merger v d s (⟨fn, c, h⟩ :: rest)).processed =
        s.processed + (rest.length + 1)) := by
  have hisEmpty : c.isEmpty = false := by
    cases c with
    | nil => exact absurd rfl hne
    | cons x xs => rfl
  have hrun : execMergeBatch v d [{ bodyPath := some p, atts := [⟨fn, c, h⟩], origId := oid }] =
      { artifacts := [Artifact.bodyPdf p, Artifact.labelPage fn h none,
          Artifact.brokenNotice fn h]
        seen := if d then [(h, fn)] else []
        processed := 1
        broken := [fn ++ brokenSuffix]
        reused := 0 } := by
    unfold execMergeBatch
    simp only [List.foldl_cons, List.foldl_nil]
    simp only [List.filter_cons, hpdf, if_pos, List.filter_nil]
    unfold append_attachment_pages_to_merger
    simp only [List.foldl_cons, List.foldl_nil]
    unfold processOneAttachment
    simp [emptyAttachState, dictLookup, dictInsert, hpdf, hisEmpty, hv]
  refine ⟨by rw [hrun], by rw [hrun], ?_, ?_⟩
  · intro hd
    rw [hrun, hd]
    simp
  · intro s
    rw [processed_append]
    simp

/-- Witness for `c8_broken_attachment`: a unit whose single item carries
one corrupted `.pdf` attachment yields exactly body, label and broken
notice, with the annotated filename in the broken list. -/
theorem c8_broken_attachment_witness :
    (execMergeBatch (fun _ => false) true
        [{ bodyPath := some "body.pdf", atts := [⟨"a.pdf", [0], "h"⟩], origId := "m" }]).artifacts
      = [Artifact.bodyPdf "body.pdf", Artifact.labelPage "a.pdf" "h" none,
         Artifact.brokenNotice "a.pdf" "h"] ∧
    (execMergeBatch (fun _ => false) true
        [{ bodyPath := some "body.pdf", atts := [⟨"a.pdf", [0], "h"⟩], origId := "m" }]).broken
      = ["a.pdf" ++ brokenSuffix] := by
  have hmain := c8_broken_attachment (fun _ => false) true "body.pdf" "m" "a.pdf" "h" [0] []
    (by decide) (by decide) rfl
  exact ⟨hmain.1, hmain.2.1⟩

/-! ### Claim C9: summary accounting -/

theorem insertByOrigId_length (r : MergeResult) :
    ∀ l : List MergeResult, (insertByOrigId r l).length = l.length + 1 := by
  intro l
  induction l with
  | nil => rfl
  | cons b t ih =>
    unfold insertByOrigId
    split_ifs
    · simp
    · simp [ih]

theorem sortResultsByOrigId_length (rs : List MergeResult) :
    (sortResultsByOrigId rs).length = rs.length := by
  unfold sortResultsByOrigId
  induction rs with
  | nil => rfl
  | cons r t ih => simp [List.foldr_cons, insertByOrigId_length, ih]

theorem assembleGo_length_le (sizeOf : String → Rat) (pagesOf : String → Nat)
    (splitsize : Rat) (splitpages : Nat) :
    ∀ (results cur : List MergeResult) (accSize : Rat) (accPages : Nat),
      (assembleGo sizeOf pagesOf splitsize splitpages results cur accSize accPages).length ≤
        results.length + (if cur.isEmpty then 0 else 1) := by
  intro results
  induction results with
  | nil =>
    intro cur accSize accPages
    simp only [assembleGo]
    split_ifs with hemp <;> simp [hemp]
  | cons r rest ih =>
    intro cur accSize accPages
    cases hb : r.bodyPath with
    | none =>
      rw [show assembleGo sizeOf pagesOf splitsize splitpages (r :: rest) cur accSize accPages =
        assembleGo sizeOf pagesOf splitsize splitpages rest cur accSize accPages by
          simp [assembleGo, hb]]
      have := ih cur accSize accPages
      simp only [List.length_cons]
      split_ifs at this ⊢ <;> omega
    | some pth =>
      simp only [assembleGo, hb]
      by_cases hflushS : ¬ cur.isEmpty = true ∧ splitsize > 0 ∧
          accSize + candidateSize sizeOf r > splitsize
      · rw [if_pos hflushS]
        have hthis : (assembleGo sizeOf pagesOf splitsize splitpages rest [r]
            (candidateSize sizeOf r) (candidatePages pagesOf r)).length ≤ rest.length + 1 := by
          simpa using ih [r] (candidateSize sizeOf r) (candidatePages pagesOf r)
        have hcur : cur.isEmpty = false := by
          cases hq : cur.isEmpty
          · rfl
          · exact absurd hq hflushS.1
        simp only [List.length_cons, hcur, Bool.false_eq_true, if_false]
        omega
      · rw [if_neg hflushS]
        by_cases hflushP : ¬ cur.isEmpty = true ∧ splitpages > 0 ∧
            accPages + candidatePages pagesOf r > splitpages
        · rw [if_pos hflushP]
          have hthis : (assembleGo sizeOf pagesOf splitsize splitpages rest [r]
              (candidateSize sizeOf r) (candidatePages pagesOf r)).length ≤
              rest.length + 1 := by
            simpa using ih [r] (candidateSize sizeOf r) (candidatePages pagesOf r)
          have hcur : cur.isEmpty = false := by
            cases hq : cur.isEmpty
            · rfl
            · exact absurd hq hflushP.1
          simp only [List.length_cons, hcur, Bool.false_eq_true, if_false]
          omega
        · rw [if_neg hflushP]
          have hne : (cur ++ [r]).isEmpty = false := by
            cases cur <;> rfl
          have hthis : (assembleGo sizeOf pagesOf splitsize splitpages rest (cur ++ [r])
              (accSize + candidateSize sizeOf r)
              (accPages + candidatePages pagesOf r)).length ≤ rest.length + 1 := by
            simpa [hne] using ih (cur ++ [r]) (accSize + candidateSize sizeOf r)
              (accPages + candidatePages pagesOf r)
          simp only [List.length_cons]
          split_ifs <;> omega

theorem assembleBatches_length_le (sizeOf : String → Rat) (pagesOf : String → Nat)
    (splitsize : Rat) (splitpages : Nat) (results : List MergeResult) :
    (assembleBatches sizeOf pagesOf splitsize splitpages results).length ≤ results.length := by
  have := assembleGo_length_le sizeOf pagesOf splitsize splitpages results [] 0 0
  simpa [assembleBatches] using this

/-- Claim C9: every run completes with a summary in which every
attempted item is accounted for: `itemsAttempted` equals the number of
enumerated input items, and equals the reported succeeded count plus the
reported failed count, in merge mode and in individual-output mode
(where `failed` is computed as `attempted − succeeded`, lines 603–605,
and the succeeded count never exceeds the attempted count). -/
theorem c9_summary_accounting (v : List Nat → Bool) (d : Bool)
    (sizeOf : String → Rat) (pagesOf : String → Nat)
    (splitsize : Rat) (splitpages : Nat)
    (inner : TaskInfo → Except String (Option String × List AttachmentData))
    (parse : TaskInfo → Except String (List AttachmentData))
    (outPathOf : TaskInfo → String) (tasks : List TaskInfo) :
    (convertMergeRun v d sizeOf pagesOf splitsize splitpages inner tasks).1.itemsAttempted
        = tasks.length ∧
    (convertMergeRun v d sizeOf pagesOf splitsize splitpages inner tasks).1.itemsAttempted =
      (convertMergeRun v d sizeOf pagesOf splitsize splitpages inner tasks).1.succeeded +
        (convertMergeRun v d sizeOf pagesOf splitsize splitpages inner tasks).1.failed ∧
    (convertIndividualRun v d parse outPathOf tasks).1.itemsAttempted = tasks.length ∧
    (convertIndividualRun v d parse outPathOf tasks).1.itemsAttempted =
      (convertIndividualRun v d parse outPathOf tasks).1.succeeded +
        (convertIndividualRun v d parse outPathOf tasks).1.failed := by
  refine ⟨rfl, ?_, rfl, ?_⟩
  · show tasks.length =
      (assembleBatches sizeOf pagesOf splitsize splitpages
        (sortResultsByOrigId (runPool inner tasks))).length +
      (tasks.length -
        (assembleBatches sizeOf pagesOf splitsize splitpages
          (sortResultsByOrigId (runPool inner tasks))).length)
    have h1 := assembleBatches_length_le sizeOf pagesOf splitsize splitpages
      (sortResultsByOrigId (runPool inner tasks))
    have h2 : (sortResultsByOrigId (runPool inner tasks)).length = tasks.length := by
      rw [sortResultsByOrigId_length]
      simp [runPool]
    omega
  · show tasks.length =
      ((tasks.map (process_email_task_individual v d parse outPathOf)).filter
        (fun r => r.outPath.isSome)).length +
      (tasks.length -
        ((tasks.map (process_email_task_individual v d parse outPathOf)).filter
          (fun r => r.outPath.isSome)).length)
    have h1 := List.length_filter_le (fun r => r.outPath.isSome)
      (tasks.map (process_email_task_individual v d parse outPathOf))
    simp only [List.length_map] at h1
    omega

/-! ### Claim C10: the `.pdf` filename filter -/

theorem filter_pdf_idem (L : List AttachmentData) :
    (L.filter (fun a => isPdfName a.filename)).filter (fun a => isPdfName a.filename) =
      L.filter (fun a => isPdfName a.filename) := by
  induction L with
  | nil => rfl
  | cons a t ih =>
    by_cases hp : isPdfName a.filename = true
    · simp [List.filter_cons, hp, ih]
    · simp [List.filter_cons, hp, ih]

/-- Removing the non-`.pdf` attachments of every item changes nothing in
a batch execution: they never enter the pipeline. -/
theorem execMergeBatch_filter_invariant (v : List Nat → Bool) (d : Bool)
    (items : List MergeResult) :
    execMergeBatch v d items =
      execMergeBatch v d (items.map (fun r =>
        { r with atts := r.atts.filter (fun a => isPdfName a.filename) })) := by
  unfold execMergeBatch
  suffices h : ∀ (l : List MergeResult) (s : AttachMergeState),
      l.foldl
        (fun s r =>
          let s' := match r.bodyPath with
            | some p => { s with artifacts := s.artifacts ++ [Artifact.bodyPdf p] }
            | none => s
          let pdfAtts := r.atts.filter (fun a => isPdfName a.filename)
          if pdfAtts.isEmpty then s'
          else append_attachment_pages_to_merger v d s' pdfAtts) s =
      (l.map (fun r => { r with atts := r.atts.filter (fun a => isPdfName a.filename) })).foldl
        (fun s r =>
          let s' := match r.bodyPath with
            | some p => { s with artifacts := s.artifacts ++ [Artifact.bodyPdf p] }
            | none => s
          let pdfAtts := r.atts.filter (fun a => isPdfName a.filename)
          if pdfAtts.isEmpty then s'
          else append_attachment_pages_to_merger v d s' pdfAtts) s by
    exact h items emptyAttachState
  intro l
  induction l with
  | nil => intro s; rfl
  | cons r t ih =>
    intro s
    simp only [List.map_cons, List.foldl_cons]
    rw [← ih]
    congr 1
    simp only [filter_pdf_idem]

/-- Every label page produced by one loop step names the processed
attachment's filename. -/
theorem processOne_label_shape (v : List Nat → Bool) (d : Bool)
    (s : AttachMergeState) (a : AttachmentData) :
    ∃ block : List Artifact,
      (processOneAttachment v d s a).artifacts = s.artifacts ++ block ∧
      ∀ fn h o, Artifact.labelPage fn h o ∈ block → fn = a.filename := by
  unfold processOneAttachment
  split_ifs <;> refine ⟨_, rfl, ?_⟩ <;> intro fn h o hmem <;> simp at hmem <;> tauto

/-- Every label page produced by a run of the loop either predates it or
names the filename of one of the processed attachments. -/
theorem label_filename_from_atts (v : List Nat → Bool) (d : Bool) :
    ∀ (L : List AttachmentData) (s : AttachMergeState) (fn h : String) (o : Option String),
      Artifact.labelPage fn h o ∈ (append_attachment_pages_to_merger v d s L).artifacts →
      Artifact.labelPage fn h o ∈ s.artifacts ∨ ∃ x ∈ L, x.filename = fn := by
  intro L
  induction L with
  | nil => intro s fn h o hmem; exact Or.inl hmem
  | cons a t ih =>
    intro s fn h o hmem
    rcases ih (processOneAttachment v d s a) fn h o hmem with hin | ⟨x, hx, rfl⟩
    · rcases processOne_label_shape v d s a with ⟨block, hshape, hblock⟩
      rw [hshape] at hin
      rcases List.mem_append.mp hin with hin' | hinb
      · exact Or.inl hin'
      · exact Or.inr ⟨a, by simp, (hblock fn h o hinb).symm⟩
    · exact Or.inr ⟨x, by simp [hx], rfl⟩

/-- Every label page of an executed merge batch names a `.pdf`-suffixed
filename: no other attachment ever gets a label page. -/
theorem execMergeBatch_labels_pdf (v : List Nat → Bool) (d : Bool)
    (items : List MergeResult) :
    ∀ (fn h : String) (o : Option String),
      Artifact.labelPage fn h o ∈ (execMergeBatch v d items).artifacts →
      isPdfName fn = true := by
  unfold execMergeBatch
  suffices hgen : ∀ (l : List MergeResult) (s : AttachMergeState),
      (∀ (fn h : String) (o : Option String),
        Artifact.labelPage fn h o ∈ s.artifacts → isPdfName fn = true) →
      ∀ (fn h : String) (o : Option String),
        Artifact.labelPage fn h o ∈
          (l.foldl
            (fun s r =>
              let s' := match r.bodyPath with
                | some p => { s with artifacts := s.artifacts ++ [Artifact.bodyPdf p] }
                | none => s
              let pdfAtts := r.atts.filter (fun a => isPdfName a.filename)
              if pdfAtts.isEmpty then s'
              else append_attachment_pages_to_merger v d s' pdfAtts) s).artifacts →
        isPdfName fn = true by
    intro fn h o hmem
    exact hgen items emptyAttachState (by simp [emptyAttachState]) fn h o hmem
  intro l
  induction l with
  | nil => intro s hs fn h o hmem; exact hs fn h o hmem
  | cons r t ih =>
    intro s hs fn h o hmem
    simp only [List.foldl_cons] at hmem
    apply ih _ _ fn h o hmem
    intro fn' h' o' hm'
    simp only at hm'
    have hbody : ∀ (s₀ : AttachMergeState),
        (∀ (a b : String) (c : Option String),
          Artifact.labelPage a b c ∈ s₀.artifacts → isPdfName a = true) →
        ∀ (a b : String) (c : Option String),
          Artifact.labelPage a b c ∈
            (match r.bodyPath with
              | some p => { s₀ with artifacts := s₀.artifacts ++ [Artifact.bodyPdf p] }
              | none => s₀).artifacts → isPdfName a = true := by
      intro s₀ hs₀ a b c hm
      cases hb : r.bodyPath with
      | none => rw [hb] at hm; exact hs₀ a b c hm
      | some p =>
        rw [hb] at hm
        simp only at hm
        rcases List.mem_append.mp hm with hin | hsing
        · exact hs₀ a b c hin
        · simp at hsing
    split_ifs at hm' with hemp
    · exact hbody s hs fn' h' o' hm'
    · rcases label_filename_from_atts v d _ _ fn' h' o' hm' with hin | ⟨x, hx, rfl⟩
      · exact hbody s hs fn' h' o' hin
      · exact (List.mem_filter.mp hx).2

/-- Claim C10: an attachment participates in the label/embed/dedup
pipeline (and in the processed, broken and reused counters) if and only
if its filename ends with `.pdf` case-insensitively: the pipeline input
is exactly the `.pdf`-filtered list (so dropping the other attachments
changes nothing, in merge units and in the per-item processed counter),
every label page names a `.pdf`-suffixed filename, and every attachment
— `.pdf` or not — appears in the body's attachment-name summary list. -/
theorem c10_pdf_suffix_filter (v : List Nat → Bool) (d : Bool)
    (esc : String → String) (atts : List AttachmentData) (a : AttachmentData)
    (items : List MergeResult) :
    (a ∈ atts.filter (fun x => isPdfName x.filename) ↔
      a ∈ atts ∧ isPdfName a.filename = true) ∧
    (execMergeBatch v d items =
      execMergeBatch v d (items.map (fun r =>
        { r with atts := r.atts.filter (fun x => isPdfName x.filename) }))) ∧
    (∀ (fn h : String) (o : Option String),
      Artifact.labelPage fn h o ∈ (execMergeBatch v d items).artifacts →
      isPdfName fn = true) ∧
    ((eml_to_output_for_individual_file v d atts).1 =
      (atts.filter (fun x => isPdfName x.filename)).length) ∧
    (a ∈ atts →
      ("<li>" ++ esc a.filename ++ " (SHA256: " ++ a.hash ++ ")</li>") ∈
        attachmentListItems esc atts) := by
  refine ⟨List.mem_filter, execMergeBatch_filter_invariant v d items,
    execMergeBatch_labels_pdf v d items, ?_, ?_⟩
  · unfold eml_to_output_for_individual_file
    simp only
    rw [processed_append]
    simp [emptyAttachState]
  · intro ha
    unfold attachmentListItems
    exact List.mem_map.mpr ⟨a, ha, rfl⟩

/-- Attachments for the C10 witness: one `.PDF`-named (case-insensitive
match) and one `.txt`-named. -/
def c10wAtts : List AttachmentData :=
  [⟨"x.PDF", [1], "h"⟩, ⟨"y.txt", [2], "g"⟩]

/-- Witness for `c10_pdf_suffix_filter`: the `.txt` attachment still
appears in the body's attachment-name summary list. -/
theorem c10_pdf_suffix_filter_witness :
    ("<li>" ++ "y.txt" ++ " (SHA256: " ++ "g" ++ ")</li>") ∈
      attachmentListItems (fun s => s) c10wAtts :=
  (c10_pdf_suffix_filter (fun _ => true) true (fun s => s) c10wAtts
      ⟨"y.txt", [2], "g"⟩ []).2.2.2.2 (by decide)
